import Mathlib

/-!
# Token persistence (`autorest/adal/persist.go`)

A shallow embedding of `LoadToken`, `LoadCLITokens` and `SaveToken` over an
explicit file-system state.  The operating-system and library calls the source
makes (`os.Open`, `os.MkdirAll`, `ioutil.TempFile`, `json` encoding and
decoding, `Close`, `os.Rename`, `os.Chmod`, `filepath.Dir`) are modelled as
functions on that state; whether a call fails for a reason outside the state
(disk full, too many open files, ...) is chosen by an environment record that
every theorem quantifies over.  A path refers to the file or directory stored
under its cleaned spelling (`d//x`, `d/./x` and `d/x` are one file); links are
not modelled.  The calling process is an unprivileged owner of the files it
touches: a file whose owner's read bit is not set does not open for reading.
-/

namespace Adal

/-! ## Strings and error messages -/

/-- Substring test: `Contains s sub` holds when `sub` occurs inside `s`. -/
def Contains (s sub : String) : Prop := sub.data <:+: s.data

instance (s sub : String) : Decidable (Contains s sub) := by
  unfold Contains; infer_instance

/-! ## `path/filepath` on Unix -/

/-- Path elements: the pieces of a path between separators. -/
def elements : List Char → List (List Char)
  | [] => [[]]
  | c :: cs =>
    if c = '/' then [] :: elements cs
    else
      match elements cs with
      | [] => [[c]]
      | e :: es => (c :: e) :: es

/-- One iteration of the loop of `filepath.Clean`: `out` holds the elements
written so far, innermost first.  Empty and `.` elements are dropped; `..`
removes the preceding element when there is one that is not itself `..`, is
dropped at the root, and is kept otherwise; any other element is appended. -/
def cleanStep (rooted : Bool) (out : List (List Char)) (elem : List Char) :
    List (List Char) :=
  if elem = [] ∨ elem = ['.'] then out
  else if elem = ['.', '.'] then
    match out with
    | top :: rest => if top = ['.', '.'] then elem :: out else rest
    | [] => if rooted then [] else [elem]
  else elem :: out

/-- The elements written out with one separator between neighbours. -/
def joinElems : List (List Char) → List Char
  | [] => []
  | [e] => e
  | e :: e' :: es => e ++ '/' :: joinElems (e' :: es)

/-- Output of `filepath.Clean` for the cleaned elements: a leading separator
for a rooted path, then the elements. -/
def renderPath (rooted : Bool) (elems : List (List Char)) : List Char :=
  (if rooted then ['/'] else []) ++ joinElems elems

/-- The last step of `filepath.Clean`: an empty result becomes `.`. -/
def orDot (s : List Char) : List Char := if s = [] then ['.'] else s

/-- Character-level `filepath.Clean`. -/
def cleanChars (p : List Char) : List Char :=
  if p = [] then ['.']
  else
    let rooted := p.head? = some '/'
    orDot (renderPath rooted (((elements p).foldl (cleanStep rooted) []).reverse))

/-- Everything up to and including the last separator. -/
def dirPrefix (p : List Char) : List Char :=
  (p.reverse.dropWhile (fun c => c ≠ '/')).reverse

/-- Go's `filepath.Clean`. -/
def Clean (path : String) : String := ⟨cleanChars path.data⟩

/-- Go's `filepath.Dir`: all but the last element of the path, cleaned. -/
def Dir (path : String) : String := ⟨cleanChars (dirPrefix path.data)⟩

/-- Go's `filepath.Join` for two elements: empty elements are ignored, the
rest is joined with a separator and cleaned. -/
def Join (dir name : String) : String :=
  if dir ≠ "" then Clean (dir ++ "/" ++ name)
  else if name ≠ "" then Clean name
  else ""

/-- Decimal digit character. -/
def digitChar (d : Nat) : Char :=
  if d = 0 then '0' else if d = 1 then '1' else if d = 2 then '2'
  else if d = 3 then '3' else if d = 4 then '4' else if d = 5 then '5'
  else if d = 6 then '6' else if d = 7 then '7' else if d = 8 then '8'
  else '9'

/-- The random suffix `ioutil.TempFile` appends to the pattern:
`strconv.Itoa(int(1e9 + r%1e9))[1:]`, the nine decimal digits of `r % 1e9`. -/
def nextRandom (r : Nat) : String :=
  ⟨(List.range 9).reverse.map (fun i => digitChar (r / 10 ^ i % 10))⟩

/-- A proper path element: not empty, not `.`, not `..`, without separator. -/
def Real (e : List Char) : Prop :=
  e ≠ [] ∧ e ≠ ['.'] ∧ e ≠ ['.', '.'] ∧ '/' ∉ e

/-- Shape of the element stack of `filepath.Clean` (innermost first): proper
elements on top of a block of `..` elements, the block being empty for a
rooted path. -/
def NormalOut (rooted : Bool) : List (List Char) → Prop
  | [] => True
  | top :: rest =>
    (Real top ∧ NormalOut rooted rest) ∨
    (top = ['.', '.'] ∧ rooted = false ∧ ∀ e ∈ rest, e = ['.', '.'])

/-! ## File-system state -/

/-- Go's `os.FileMode`. -/
abbrev FileMode := Nat

/-- Go's `os.ModePerm`, the Unix permission bits. -/
def ModePerm : FileMode := 0o777

/-- Go's `FileMode.Perm`: the permission bits of a mode. -/
def Perm (m : FileMode) : Nat := m &&& ModePerm

/-- A regular file: its bytes and its permission bits. -/
structure File where
  content : String
  perm : Nat
  deriving DecidableEq, Repr

/-- File-system state: the directories and the regular files, both stored
under cleaned paths, and one entry per open file handle (naming the file it
was opened on). -/
structure FS where
  dirTable : String → Bool
  fileTable : String → Option File
  handles : List String

/-- Whether the path `p` refers to a directory. -/
def FS.dirs (fs : FS) (p : String) : Bool := fs.dirTable (Clean p)

/-- The regular file the path `p` refers to, if any. -/
def FS.files (fs : FS) (p : String) : Option File := fs.fileTable (Clean p)

/-- Replace (or remove) the file the path `p` refers to. -/
def FS.setFile (fs : FS) (p : String) (f : Option File) : FS :=
  { fs with fileTable := fun q => if q = Clean p then f else fs.fileTable q }

/-- The first `n` bytes of `s`. -/
def firstBytes (n : Nat) (s : String) : String := ⟨s.data.take n⟩

/-! ## Operating-system and library calls -/

/-- The directories `os.MkdirAll` creates for `p`: every proper prefix of `p`
that ends right before a separator, outermost first, and `p` itself. -/
def mkdirChain (p : String) : List String :=
  (((List.range p.data.length).filter
      (fun i => 0 < i ∧ p.data.get? i = some '/')).map
      (fun i => firstBytes i p)) ++ [p]

/-- Mark the directories `ds` as existing. -/
def FS.addDirs (fs : FS) (ds : List String) : FS :=
  { fs with dirTable := fun q => decide (q ∈ ds.map Clean) || fs.dirTable q }

/-- The call `os.MkdirAll(path, perm)`.  `o = none`: the call succeeds and the
whole chain exists afterwards.  `o = some (k, cause)`: it fails with `cause`
after creating the first `k` directories of the chain.  It also fails when
`path` names a regular file.  Returns the states passed through (one more
directory each), the last of them, and the error. -/
def MkdirAll (o : Option (Nat × String)) (fs : FS) (path : String)
    (_perm : FileMode) : List FS × FS × Option String :=
  match fs.files path with
  | some _ => ([], fs, some ("mkdir " ++ path ++ ": not a directory"))
  | none =>
    let upTo (n : Nat) : List FS :=
      (List.range (n + 1)).map (fun j => fs.addDirs ((mkdirChain path).take j))
    match o with
    | some (k, cause) =>
      (upTo k, fs.addDirs ((mkdirChain path).take k), some cause)
    | none =>
      (upTo (mkdirChain path).length, fs.addDirs (mkdirChain path), none)

/-- The call `ioutil.TempFile(dir, pattern)`: creates the file
`Join(dir, pattern + nextRandom())` exclusively (`O_EXCL`) with mode `0600`
and opens it; `r` is the random number of the last attempt.  Every failure is
the `*PathError` of the failing `os.OpenFile`, printed `open <name>: <reason>`:
the reason the environment gives (`o = .error (r, reason)`), a missing
directory, or a name that is taken.  `tmpdir` is `os.TempDir()`, used for an
empty `dir`. -/
def TempFile (o : Except (Nat × String) Nat) (tmpdir : String) (fs : FS)
    (dir pattern : String) : Except String (String × FS) :=
  let dir := if dir = "" then tmpdir else dir
  match o with
  | .error (r, reason) =>
    .error ("open " ++ Join dir (pattern ++ nextRandom r) ++ ": " ++ reason)
  | .ok r =>
    let name := Join dir (pattern ++ nextRandom r)
    if fs.dirs dir = false then
      .error ("open " ++ name ++ ": " ++ "no such file or directory")
    else if (fs.files name).isSome ∨ fs.dirs name = true then
      .error ("open " ++ name ++ ": " ++ "file exists")
    else
      .ok (name, { (fs.setFile name (some ⟨"", 0o600⟩)) with
                   handles := name :: fs.handles })

/-- Stand-in for the `encoding/json` codec of a record type: `marshal` is
`json.Marshal`, `unmarshal` decodes the first JSON value of a byte stream. -/
structure Codec (α : Type) where
  marshal : α → Except String String
  unmarshal : String → Except String α

/-- What `Encoder.Encode` writes for a value: its JSON text and a newline. -/
def Codec.encoding {α : Type} (J : Codec α) (v : α) : Except String String :=
  match J.marshal v with
  | .error e => .error e
  | .ok s => .ok (s ++ "\n")

/-- Append `s` to the file stored under `p` (a write through a handle whose
offset is the end of the file). -/
def FS.append (fs : FS) (p : String) (s : String) : FS :=
  match fs.files p with
  | none => fs
  | some f => fs.setFile p (some { f with content := f.content ++ s })

/-- The call `json.NewEncoder(f).Encode(v)` on the handle of file `name`: the
value is marshalled into a buffer, then the buffer is written to the file.
Returns the states the file system passes through (the file grows byte by
byte), the last of them, and the error.  `w = some (n, cause)`: the write
fails with `cause` after `n` bytes. -/
def Encode {α : Type} (J : Codec α) (w : Option (Nat × String)) (fs : FS)
    (name : String) (v : α) : List FS × FS × Option String :=
  match J.encoding v with
  | .error e => ([], fs, some e)
  | .ok data =>
    let upTo (n : Nat) : List FS :=
      (List.range (n + 1)).map (fun k => fs.append name (firstBytes k data))
    match w with
    | some (n, cause) =>
      (upTo (min n data.length),
        fs.append name (firstBytes (min n data.length) data), some cause)
    | none => (upTo data.length, fs.append name data, none)

/-- The call `f.Close()` on the handle of file `name`: the handle is released
whether or not an error is reported. -/
def Close (o : Option String) (fs : FS) (name : String) : FS × Option String :=
  ({ fs with handles := fs.handles.erase name }, o)

/-- The call `os.Rename(oldpath, newpath)`: on success `newpath` names the file
`oldpath` named and `oldpath` is gone; on failure nothing changes.  Fails when
the environment says so, when `oldpath` is missing and when `newpath` is a
directory. -/
def Rename (o : Option String) (fs : FS) (oldpath newpath : String) :
    FS × Option String :=
  match o with
  | some cause => (fs, some cause)
  | none =>
    match fs.files oldpath with
    | none =>
      (fs, some ("rename " ++ oldpath ++ " " ++ newpath ++
        ": no such file or directory"))
    | some f =>
      if fs.dirs newpath = true then
        (fs, some ("rename " ++ oldpath ++ " " ++ newpath ++ ": file exists"))
      else ((fs.setFile oldpath none).setFile newpath (some f), none)

/-- The call `os.Chmod(name, mode)`: sets the permission bits of the file to
those of `mode`. -/
def Chmod (o : Option String) (fs : FS) (name : String) (mode : FileMode) :
    FS × Option String :=
  match o with
  | some cause => (fs, some cause)
  | none =>
    match fs.files name with
    | none => (fs, some ("chmod " ++ name ++ ": no such file or directory"))
    | some f => (fs.setFile name (some { f with perm := Perm mode }), none)

/-- What an open handle refers to: a regular file, or a directory. -/
inductive Node where
  | file (f : File)
  | dir (name : String)

/-- The call `os.Open(name)`: fails when the environment says so, when the
owner's read bit of the file is not set, and when nothing is stored under the
name; otherwise a handle is added.  A directory opens like a file. -/
def Open (o : Option String) (fs : FS) (name : String) :
    Except String (Node × FS) :=
  match o with
  | some cause => .error cause
  | none =>
    match fs.files name with
    | some f =>
      if f.perm &&& 0o400 = 0 then
        .error ("open " ++ name ++ ": permission denied")
      else .ok (.file f, { fs with handles := name :: fs.handles })
    | none =>
      if fs.dirs name = true then
        .ok (.dir name, { fs with handles := name :: fs.handles })
      else .error ("open " ++ name ++ ": no such file or directory")

/-- The call `json.NewDecoder(f).Decode(&v)` on an open handle: fails when
reading fails (`r = some cause`, or the handle is on a directory) or the
content does not decode. -/
def Decode {α : Type} (J : Codec α) (r : Option String) (n : Node) :
    Except String α :=
  match r with
  | some cause => .error cause
  | none =>
    match n with
    | .file f => J.unmarshal f.content
    | .dir name => .error ("read " ++ name ++ ": is a directory")

/-! ## The source functions -/

/-- Outcomes the environment chooses for the calls of `LoadToken` and
`LoadCLITokens`: the cause of a failure, or `none`. -/
structure LoadEnv where
  openFile : Option String
  read : Option String
  close : Option String

/-- Outcomes the environment chooses for the calls of `SaveToken`. -/
structure SaveEnv where
  mkdirAll : Option (Nat × String)
  tempFile : Except (Nat × String) Nat
  tempDir : String
  write : Option (Nat × String)
  close : Option String
  rename : Option String
  chmod : Option String

/-- The six fallible steps of `SaveToken`. -/
inductive Step where
  | mkdirAll | tempFile | encode | close | rename | chmod
  deriving DecidableEq, Repr

/-- Error of both readers for a failed `os.Open`. -/
def errOpen (path err : String) : String :=
  "failed to open file (" ++ path ++ ") while loading token: " ++ err

/-- Error of `LoadToken` for a failed decode. -/
def errDecodeToken (path err : String) : String :=
  "failed to decode contents of file (" ++ path ++
    ") into Token representation: " ++ err

/-- Error of `LoadCLITokens` for a failed decode. -/
def errDecodeCLITokens (path err : String) : String :=
  "failed to decode contents of file (" ++ path ++
    ") into AzureCLIToken representation: " ++ err

/-- Error of `SaveToken` for a failed `os.MkdirAll`. -/
def errMkdirAll (dir err : String) : String :=
  "failed to create directory (" ++ dir ++ ") to store token in: " ++ err

/-- Error of `SaveToken` for a failed `ioutil.TempFile`. -/
def errTempFile (err : String) : String :=
  "failed to create the temp file to write the token: " ++ err

/-- Error of `SaveToken` for a failed `Encode`. -/
def errEncode (tempPath err : String) : String :=
  "failed to encode token to file (" ++ tempPath ++
    ") while saving token: " ++ err

/-- Error of `SaveToken` for a failed `Close` of the temporary file. -/
def errClose (tempPath err : String) : String :=
  "failed to close temp file " ++ tempPath ++ ": " ++ err

/-- Error of `SaveToken` for a failed `os.Rename`. -/
def errRename (tempPath path err : String) : String :=
  "failed to move temporary token to desired output location. src=" ++
    tempPath ++ " dst=" ++ path ++ ": " ++ err

/-- Error of `SaveToken` for a failed `os.Chmod`. -/
def errChmod (path err : String) : String :=
  "failed to chmod the token file " ++ path ++ ": " ++ err

/-- `LoadToken` restores a Token from the file at `path`.  Returns the result
(`.error msg` is Go's `nil, err`) and the file system after the call; the
deferred `file.Close()` runs on both exits taken after the open. -/
def LoadToken {Token : Type} (J : Codec Token) (env : LoadEnv) (fs : FS)
    (path : String) : Except String Token × FS :=
  match Open env.openFile fs path with
  | .error err => (.error (errOpen path err), fs)
  | .ok (file, fs₁) =>
    match Decode J env.read file with
    | .error err =>
      (.error (errDecodeToken path err), (Close env.close fs₁ path).1)
    | .ok token => (.ok token, (Close env.close fs₁ path).1)

/-- `LoadCLITokens` restores a list of AzureCLIToken from the file at `path`. -/
def LoadCLITokens {CLIToken : Type} (J : Codec (List CLIToken)) (env : LoadEnv)
    (fs : FS) (path : String) : Except String (List CLIToken) × FS :=
  match Open env.openFile fs path with
  | .error err => (.error (errOpen path err), fs)
  | .ok (file, fs₁) =>
    match Decode J env.read file with
    | .error err =>
      (.error (errDecodeCLITokens path err), (Close env.close fs₁ path).1)
    | .ok tokens => (.ok tokens, (Close env.close fs₁ path).1)

/-- What a call of `SaveToken` leaves behind: the returned error (`none` is
Go's `nil`), the file system after the call, every state the file system
passed through (first the state before the call, last the state after it),
and three observations used to state properties: the step that failed, the
error the failing call reported, and the name of the temporary file once it
was created. -/
structure SaveResult where
  err : Option String
  fs : FS
  trace : List FS
  failed : Option Step
  cause : Option String
  tempPath : Option String

/-- `SaveToken` persists an oauth token at the given location on disk: it
creates the directory of `path`, writes the encoded token to a temporary file
there, closes it, renames it onto `path` and sets the mode.  As in the
source, each failing step returns at once; the return on the encode error
comes before the `Close`. -/
def SaveToken {Token : Type} (J : Codec Token) (env : SaveEnv) (fs₀ : FS)
    (path : String) (mode : FileMode) (token : Token) : SaveResult :=
  let dir := Dir path
  match MkdirAll env.mkdirAll fs₀ dir ModePerm with
  | (ds, fs₁, some err) =>
    ⟨some (errMkdirAll dir err), fs₁, fs₀ :: ds ++ [fs₁], some .mkdirAll,
      some err, none⟩
  | (ds, fs₁, none) =>
    match TempFile env.tempFile env.tempDir fs₁ dir "token" with
    | .error err =>
      ⟨some (errTempFile err), fs₁, fs₀ :: ds ++ [fs₁], some .tempFile,
        some err, none⟩
    | .ok (tempPath, fs₂) =>
      match Encode J env.write fs₂ tempPath token with
      | (ws, fs₃, some err) =>
        ⟨some (errEncode tempPath err), fs₃,
          fs₀ :: ds ++ [fs₁, fs₂] ++ ws ++ [fs₃], some .encode, some err,
          some tempPath⟩
      | (ws, fs₃, none) =>
        match Close env.close fs₃ tempPath with
        | (fs₄, some err) =>
          ⟨some (errClose tempPath err), fs₄,
            fs₀ :: ds ++ [fs₁, fs₂] ++ ws ++ [fs₃, fs₄], some .close,
            some err, some tempPath⟩
        | (fs₄, none) =>
          match Rename env.rename fs₄ tempPath path with
          | (fs₅, some err) =>
            ⟨some (errRename tempPath path err), fs₅,
              fs₀ :: ds ++ [fs₁, fs₂] ++ ws ++ [fs₃, fs₄, fs₅], some .rename,
              some err, some tempPath⟩
          | (fs₅, none) =>
            match Chmod env.chmod fs₅ path mode with
            | (fs₆, some err) =>
              ⟨some (errChmod path err), fs₆,
                fs₀ :: ds ++ [fs₁, fs₂] ++ ws ++ [fs₃, fs₄, fs₅, fs₆],
                some .chmod, some err, some tempPath⟩
            | (fs₆, none) =>
              ⟨none, fs₆,
                fs₀ :: ds ++ [fs₁, fs₂] ++ ws ++ [fs₃, fs₄, fs₅, fs₆],
                none, none, some tempPath⟩

/-! ## A concrete instance, for evaluating the definitions -/

/-- Example record type: a token carrying only its access token. -/
structure ExampleToken where
  accessToken : String
  deriving DecidableEq, Repr

/-- Opening of the JSON text of an `ExampleToken`. -/
def exampleOpening : List Char := "\x7b\"access_token\":\"".data

/-- Example codec: the record is written as a JSON object with the single
field `access_token` (no escaping); decoding reads the field back. -/
def exampleCodec : Codec ExampleToken where
  marshal t := .ok ⟨exampleOpening ++ t.accessToken.data ++ "\"\x7d".data⟩
  unmarshal s :=
    if exampleOpening <+: s.data then
      let rest := s.data.drop exampleOpening.length
      let tok := rest.takeWhile (fun c => c ≠ '"')
      if (rest.drop tok.length).take 2 = "\"\x7d".data then .ok ⟨⟨tok⟩⟩
      else .error "unexpected end of JSON input"
    else .error "invalid character looking for beginning of value"

/-- Example codec for a list of records: a JSON array of numbers written one
digit each, such as `[1,2]`. -/
def exampleListCodec : Codec (List Nat) where
  marshal l := .ok ⟨'[' :: (l.map digitChar).intersperse ',' ++ [']']⟩
  unmarshal s :=
    match s.data with
    | '[' :: rest =>
      let body := rest.takeWhile (fun c => c ≠ ']')
      if body.all (fun c => c.isDigit ∨ c = ',') then
        .ok ((body.filter Char.isDigit).map (fun c => c.toNat - 48))
      else .error "invalid character in array"
    | _ => .error "cannot unmarshal into Go value of type []adal.AzureCLIToken"

/-- The file system with no files, no directories and no open handles. -/
def FS.empty : FS := ⟨fun _ => false, fun _ => none, []⟩

/-- An environment in which no call of `SaveToken` fails. -/
def SaveEnv.quiet (r : Nat) : SaveEnv :=
  ⟨none, .ok r, "/tmp", none, none, none, none⟩

/-- An environment in which the write of the encoded token fails after five
bytes and nothing else fails. -/
def SaveEnv.diskFull (r : Nat) : SaveEnv :=
  ⟨none, .ok r, "/tmp", some (5, "write: no space left on device"), none,
    none, none⟩

/-- An environment in which only the final chmod fails. -/
def SaveEnv.chmodFails (r : Nat) : SaveEnv :=
  ⟨none, .ok r, "/tmp", none, none, none,
    some "chmod: operation not permitted"⟩

/-- An environment in which creating the temporary file fails. -/
def SaveEnv.noTempFile (r : Nat) : SaveEnv :=
  ⟨none, .error (r, "too many open files"), "/tmp", none, none, none, none⟩

/-- A file system holding the directory `d` and an earlier token file
`d/token.json`. -/
def FS.sample : FS :=
  ⟨fun p => p = "d",
   fun p => if p = "d/token.json" then some ⟨"old", 0o644⟩ else none, []⟩

/-- An environment in which no call of `LoadToken` fails. -/
def LoadEnv.quiet : LoadEnv := ⟨none, none, none⟩

/-- The error `SaveToken` returns when step `st` fails with `err`. -/
def stepError (st : Step) (dir tempPath path err : String) : String :=
  match st with
  | .mkdirAll => errMkdirAll dir err
  | .tempFile => errTempFile err
  | .encode => errEncode tempPath err
  | .close => errClose tempPath err
  | .rename => errRename tempPath path err
  | .chmod => errChmod path err

/-- The first eighteen characters of a message. -/
def tag (msg : String) : List Char := msg.data.take 18

/-- The first eighteen characters of the message of each step. -/
def stepTag (st : Step) : List Char :=
  match st with
  | .mkdirAll => "failed to create d".data
  | .tempFile => "failed to create t".data
  | .encode => "failed to encode t".data
  | .close => "failed to close te".data
  | .rename => "failed to move tem".data
  | .chmod => "failed to chmod th".data

/-- The random number of the attempt of `TempFile` the environment decides. -/
def SaveEnv.draw (env : SaveEnv) : Nat :=
  match env.tempFile with
  | .ok r => r
  | .error (r, _) => r

/-- The name of the temporary file `SaveToken(path, ...)` creates, or tries
to create, in the environment `env`. -/
def tempName (env : SaveEnv) (path : String) : String :=
  Join (Dir path) ("token" ++ nextRandom env.draw)

/-- The paths a step of `SaveToken` acts on: the directory for `MkdirAll`,
the temporary file for `TempFile`, the encode and the close, the temporary
file and the target for the rename, the target for the chmod. -/
def actedOn (st : Step) (dir tempPath path : String) : List String :=
  match st with
  | .mkdirAll => [dir]
  | .tempFile => [tempPath]
  | .encode => [tempPath]
  | .close => [tempPath]
  | .rename => [tempPath, path]
  | .chmod => [path]

/-- Example codec for a record with one numeric field of Go type
`json.Number`, a string of digits: as `encoding/json` does, the empty number
is written as `0`. -/
def exampleNumberCodec : Codec String where
  marshal n :=
    if n.data.all Char.isDigit then
      .ok ⟨"\x7b\"expires_on\":".data ++ (if n = "" then ['0'] else n.data) ++
        "\x7d".data⟩
    else .error "json: invalid number literal"
  unmarshal s :=
    if "\x7b\"expires_on\":".data <+: s.data then
      .ok ⟨(s.data.drop 14).takeWhile Char.isDigit⟩
    else .error "invalid character looking for beginning of value"

/-! ## Properties stated about the calls -/

/-- Opening the file at `path` fails with `c`. -/
def OpenFails (env : LoadEnv) (fs : FS) (path c : String) : Prop :=
  Open env.openFile fs path = .error c

/-- The file at `path` opens and decoding its content fails with `c`. -/
def DecodeFails {α : Type} (J : Codec α) (env : LoadEnv) (fs : FS)
    (path c : String) : Prop :=
  ∃ f fs₁, Open env.openFile fs path = .ok (f, fs₁) ∧
    Decode J env.read f = .error c

/-- The content stored under `path` in state `s` is the content it has in
`fs₀` (absent in both, or the same bytes), or it is the complete encoding of
`token`. -/
def OldOrNew {Token : Type} (J : Codec Token) (token : Token) (fs₀ s : FS)
    (path : String) : Prop :=
  (s.files path).map File.content = (fs₀.files path).map File.content ∨
  ∃ data, J.encoding token = .ok data ∧
    (s.files path).map File.content = some data

/-- The record `token` survives encoding followed by decoding. -/
def RoundTrips {Token : Type} (J : Codec Token) (token : Token) : Prop :=
  ∀ data, J.encoding token = .ok data → J.unmarshal data = .ok token

/-! ## Effects of the individual calls -/

theorem orDot_ne_nil (s : List Char) : orDot s ≠ [] := by
  unfold orDot
  split
  · simp
  · assumption

theorem cleanChars_ne_nil (p : List Char) : cleanChars p ≠ [] := by
  unfold cleanChars
  split
  · simp
  · exact orDot_ne_nil _

theorem Dir_ne_empty (path : String) : Dir path ≠ "" := by
  intro h
  have h2 : (Dir path).data = [] := by rw [h]
  exact cleanChars_ne_nil _ h2

theorem setFile_files_self (fs : FS) (p : String) (f : Option File) :
    (fs.setFile p f).files p = f := by
  simp [FS.files, FS.setFile]

theorem MkdirAll_frame {o : Option (Nat × String)} {fs fs1 : FS} {p : String}
    {m : FileMode} {ds : List FS} {e : Option String}
    (h : MkdirAll o fs p m = (ds, fs1, e)) :
    (fs1.files = fs.files ∧ fs1.handles = fs.handles) ∧
      ∀ s ∈ ds, s.files = fs.files ∧ s.handles = fs.handles := by
  unfold MkdirAll at h
  split at h
  · simp only [Prod.mk.injEq] at h
    obtain ⟨rfl, rfl, -⟩ := h
    exact ⟨⟨rfl, rfl⟩, by simp⟩
  · split at h <;>
    · simp only [Prod.mk.injEq] at h
      obtain ⟨rfl, rfl, -⟩ := h
      refine ⟨⟨rfl, rfl⟩, ?_⟩
      intro s hs
      simp only [List.mem_map] at hs
      obtain ⟨j, -, rfl⟩ := hs
      exact ⟨rfl, rfl⟩

theorem MkdirAll_ok_dirs {o : Option (Nat × String)} {fs fs1 : FS} {p : String}
    {m : FileMode} {ds : List FS}
    (h : MkdirAll o fs p m = (ds, fs1, none)) : fs1.dirs p = true := by
  unfold MkdirAll at h
  split at h
  · simp at h
  · split at h
    · simp at h
    · simp only [Prod.mk.injEq] at h
      obtain ⟨-, rfl, -⟩ := h
      simp only [FS.dirs, FS.addDirs, Bool.or_eq_true, decide_eq_true_eq]
      left
      exact List.mem_map_of_mem _ (by simp [mkdirChain])

theorem TempFile_ok {o : Except (Nat × String) Nat} {td : String} {fs fs2 : FS}
    {dir pat tmp : String}
    (h : TempFile o td fs dir pat = .ok (tmp, fs2)) :
    fs.files tmp = none ∧ fs2.files = (fs.setFile tmp (some ⟨"", 0o600⟩)).files ∧
      fs2.handles = tmp :: fs.handles ∧
      ∃ r, o = .ok r ∧
        tmp = Join (if dir = "" then td else dir) (pat ++ nextRandom r) := by
  simp only [TempFile] at h
  generalize (if dir = "" then td else dir) = d at h ⊢
  rcases o with ⟨r, reason⟩ | r
  · simp at h
  · simp only at h
    by_cases h1 : fs.dirs d = false
    · simp [h1] at h
    · by_cases h2 : (fs.files (Join d (pat ++ nextRandom r))).isSome ∨
          fs.dirs (Join d (pat ++ nextRandom r)) = true
      · simp [h1, h2] at h
      · rw [if_neg h1, if_neg h2] at h
        simp only [Except.ok.injEq, Prod.mk.injEq] at h
        obtain ⟨rfl, rfl⟩ := h
        refine ⟨?_, rfl, rfl, r, rfl, rfl⟩
        simp only [not_or, Option.not_isSome_iff_eq_none] at h2
        exact h2.1

/-- A failing `TempFile` reports the name it tried to create. -/
theorem TempFile_error {o : Except (Nat × String) Nat} {td : String} {fs : FS}
    {dir pat c : String} (h : TempFile o td fs dir pat = .error c) :
    ∃ r reason, (o = .ok r ∨ ∃ w, o = .error (r, w)) ∧
      c = "open " ++ Join (if dir = "" then td else dir) (pat ++ nextRandom r) ++
        ": " ++ reason := by
  simp only [TempFile] at h
  generalize (if dir = "" then td else dir) = d at h ⊢
  rcases o with ⟨r, reason⟩ | r
  · simp only [Except.error.injEq] at h
    exact ⟨r, reason, Or.inr ⟨reason, rfl⟩, h.symm⟩
  · simp only at h
    by_cases h1 : fs.dirs d = false
    · rw [if_pos h1] at h
      simp only [Except.error.injEq] at h
      exact ⟨r, _, Or.inl rfl, h.symm⟩
    · by_cases h2 : (fs.files (Join d (pat ++ nextRandom r))).isSome ∨
          fs.dirs (Join d (pat ++ nextRandom r)) = true
      · rw [if_neg h1, if_pos h2] at h
        simp only [Except.error.injEq] at h
        exact ⟨r, _, Or.inl rfl, h.symm⟩
      · rw [if_neg h1, if_neg h2] at h
        simp at h

theorem append_handles (fs : FS) (p s : String) :
    (fs.append p s).handles = fs.handles := by
  unfold FS.append
  split <;> rfl

theorem append_files_self (fs : FS) (p s : String) (f : File)
    (h : fs.files p = some f) :
    (fs.append p s).files p = some { f with content := f.content ++ s } := by
  unfold FS.append
  rw [h]
  exact setFile_files_self _ _ _

theorem Encode_ok {α : Type} {J : Codec α} {w : Option (Nat × String)}
    {fs fs3 : FS} {tmp : String} {v : α} {ws : List FS} {f : File}
    (hf : fs.files tmp = some f)
    (h : Encode J w fs tmp v = (ws, fs3, none)) :
    ∃ data, J.encoding v = .ok data ∧
      fs3.files tmp = some { f with content := f.content ++ data } := by
  unfold Encode at h
  split at h
  · simp at h
  · rename_i data hd
    split at h
    · simp at h
    · simp only [Prod.mk.injEq] at h
      obtain ⟨-, rfl, -⟩ := h
      exact ⟨data, hd, append_files_self _ _ _ _ hf⟩

theorem Rename_ok {o : Option String} {fs fs5 : FS} {old new : String}
    (h : Rename o fs old new = (fs5, none)) :
    ∃ f, fs.files old = some f ∧ fs5.files new = some f ∧
      fs5.handles = fs.handles := by
  unfold Rename at h
  split at h
  · simp at h
  · split at h
    · simp at h
    · rename_i f hf
      split at h
      · simp at h
      · simp only [Prod.mk.injEq, and_true] at h
        subst h
        exact ⟨f, hf, setFile_files_self _ _ _, rfl⟩

theorem Rename_fail {o : Option String} {fs fs5 : FS} {old new e : String}
    (h : Rename o fs old new = (fs5, some e)) : fs5 = fs := by
  unfold Rename at h
  split at h
  · simp only [Prod.mk.injEq] at h
    exact h.1.symm
  · split at h
    · simp only [Prod.mk.injEq] at h
      exact h.1.symm
    · split at h
      · simp only [Prod.mk.injEq] at h
        exact h.1.symm
      · simp at h

theorem Chmod_ok {o : Option String} {fs fs6 : FS} {p : String} {mode : FileMode}
    (h : Chmod o fs p mode = (fs6, none)) :
    ∃ f, fs.files p = some f ∧
      fs6.files p = some { f with perm := Perm mode } ∧
      fs6.handles = fs.handles := by
  unfold Chmod at h
  split at h
  · simp at h
  · split at h
    · simp at h
    · rename_i f hf
      simp only [Prod.mk.injEq, and_true] at h
      subst h
      exact ⟨f, hf, setFile_files_self _ _ _, rfl⟩

theorem Chmod_fail {o : Option String} {fs fs6 : FS} {p e : String}
    {mode : FileMode} (h : Chmod o fs p mode = (fs6, some e)) : fs6 = fs := by
  unfold Chmod at h
  split at h
  · simp only [Prod.mk.injEq] at h
    exact h.1.symm
  · split at h
    · simp only [Prod.mk.injEq] at h
      exact h.1.symm
    · simp at h

theorem Rename_frame (o : Option String) (fs : FS) (old new : String) :
    (Rename o fs old new).1.dirs = fs.dirs ∧
      (Rename o fs old new).1.handles = fs.handles := by
  unfold Rename
  repeat' split
  all_goals exact ⟨rfl, rfl⟩

theorem Chmod_frame (o : Option String) (fs : FS) (p : String) (mode : FileMode) :
    (Chmod o fs p mode).1.dirs = fs.dirs ∧
      (Chmod o fs p mode).1.handles = fs.handles := by
  unfold Chmod
  repeat' split
  all_goals exact ⟨rfl, rfl⟩

theorem append_dirs (fs : FS) (p s : String) : (fs.append p s).dirs = fs.dirs := by
  unfold FS.append
  split <;> rfl

theorem Encode_dirs {α : Type} (J : Codec α) (w : Option (Nat × String))
    (fs : FS) (tmp : String) (v : α) :
    (Encode J w fs tmp v).2.1.dirs = fs.dirs ∧
      (Encode J w fs tmp v).2.1.handles = fs.handles := by
  unfold Encode
  repeat' split
  all_goals first | exact ⟨rfl, rfl⟩ | exact ⟨append_dirs _ _ _, append_handles _ _ _⟩

/-! ## The runs of `SaveToken` -/

/-- Case analysis of a call of `SaveToken`: the outcome of each step in turn
and the result returned on each exit. -/
theorem SaveToken_run {Token : Type} (J : Codec Token) (env : SaveEnv)
    (fs₀ : FS) (path : String) (mode : FileMode) (token : Token) :
    ∃ ds fs₁ e₁, MkdirAll env.mkdirAll fs₀ (Dir path) ModePerm = (ds, fs₁, e₁) ∧
    ((∃ err, e₁ = some err ∧ SaveToken J env fs₀ path mode token =
        ⟨some (errMkdirAll (Dir path) err), fs₁, fs₀ :: ds ++ [fs₁],
          some .mkdirAll, some err, none⟩) ∨
     (e₁ = none ∧ ∃ err,
        TempFile env.tempFile env.tempDir fs₁ (Dir path) "token" =
          .error err ∧
        SaveToken J env fs₀ path mode token =
          ⟨some (errTempFile err), fs₁, fs₀ :: ds ++ [fs₁], some .tempFile,
            some err, none⟩) ∨
     (e₁ = none ∧ ∃ tmp fs₂,
        TempFile env.tempFile env.tempDir fs₁ (Dir path) "token" =
          .ok (tmp, fs₂) ∧
        ∃ ws fs₃ e₃, Encode J env.write fs₂ tmp token = (ws, fs₃, e₃) ∧
        ((∃ err, e₃ = some err ∧ SaveToken J env fs₀ path mode token =
            ⟨some (errEncode tmp err), fs₃,
              fs₀ :: ds ++ [fs₁, fs₂] ++ ws ++ [fs₃], some .encode, some err,
              some tmp⟩) ∨
         (e₃ = none ∧ ∃ fs₄ e₄, Close env.close fs₃ tmp = (fs₄, e₄) ∧
          ((∃ err, e₄ = some err ∧ SaveToken J env fs₀ path mode token =
              ⟨some (errClose tmp err), fs₄,
                fs₀ :: ds ++ [fs₁, fs₂] ++ ws ++ [fs₃, fs₄], some .close,
                some err, some tmp⟩) ∨
           (e₄ = none ∧ ∃ fs₅ e₅, Rename env.rename fs₄ tmp path = (fs₅, e₅) ∧
            ((∃ err, e₅ = some err ∧ SaveToken J env fs₀ path mode token =
                ⟨some (errRename tmp path err), fs₅,
                  fs₀ :: ds ++ [fs₁, fs₂] ++ ws ++ [fs₃, fs₄, fs₅],
                  some .rename, some err, some tmp⟩) ∨
             (e₅ = none ∧ ∃ fs₆ e₆, Chmod env.chmod fs₅ path mode = (fs₆, e₆) ∧
              ((∃ err, e₆ = some err ∧ SaveToken J env fs₀ path mode token =
                  ⟨some (errChmod path err), fs₆,
                    fs₀ :: ds ++ [fs₁, fs₂] ++ ws ++ [fs₃, fs₄, fs₅, fs₆],
                    some .chmod, some err, some tmp⟩) ∨
               (e₆ = none ∧ SaveToken J env fs₀ path mode token =
                  ⟨none, fs₆,
                    fs₀ :: ds ++ [fs₁, fs₂] ++ ws ++ [fs₃, fs₄, fs₅, fs₆],
                    none, none, some tmp⟩)))))))))) := by
  simp only [SaveToken]
  rcases hm : MkdirAll env.mkdirAll fs₀ (Dir path) ModePerm with ⟨ds, fs₁, e₁⟩
  refine ⟨ds, fs₁, e₁, rfl, ?_⟩
  cases e₁ with
  | some err => exact Or.inl ⟨err, rfl, by dsimp only⟩
  | none =>
  right
  dsimp only
  rcases ht : TempFile env.tempFile env.tempDir fs₁ (Dir path)
    "token" with err | ⟨tmp, fs₂⟩
  · exact Or.inl ⟨rfl, err, rfl, by dsimp only⟩
  right
  dsimp only
  refine ⟨rfl, tmp, fs₂, rfl, ?_⟩
  rcases he : Encode J env.write fs₂ tmp token with ⟨ws, fs₃, e₃⟩
  refine ⟨ws, fs₃, e₃, rfl, ?_⟩
  cases e₃ with
  | some err => exact Or.inl ⟨err, rfl, by dsimp only⟩
  | none =>
  right
  dsimp only
  rcases hc : Close env.close fs₃ tmp with ⟨fs₄, e₄⟩
  refine ⟨rfl, fs₄, e₄, rfl, ?_⟩
  cases e₄ with
  | some err => exact Or.inl ⟨err, rfl, by dsimp only⟩
  | none =>
  right
  dsimp only
  rcases hr : Rename env.rename fs₄ tmp path with ⟨fs₅, e₅⟩
  refine ⟨rfl, fs₅, e₅, rfl, ?_⟩
  cases e₅ with
  | some err => exact Or.inl ⟨err, rfl, by dsimp only⟩
  | none =>
  right
  dsimp only
  rcases hch : Chmod env.chmod fs₅ path mode with ⟨fs₆, e₆⟩
  refine ⟨rfl, fs₆, e₆, rfl, ?_⟩
  cases e₆ with
  | some err => exact Or.inl ⟨err, rfl, by dsimp only⟩
  | none => exact Or.inr ⟨rfl, by dsimp only⟩

theorem SaveToken_tempPath {Token : Type} (J : Codec Token) (env : SaveEnv)
    (fs₀ : FS) (path : String) (mode : FileMode) (token : Token)
    {ds : List FS} {fs₁ fs₂ : FS} {tmp : String}
    (hm : MkdirAll env.mkdirAll fs₀ (Dir path) ModePerm = (ds, fs₁, none))
    (ht : TempFile env.tempFile env.tempDir fs₁ (Dir path) "token" =
      .ok (tmp, fs₂)) :
    (SaveToken J env fs₀ path mode token).tempPath = some tmp := by
  simp only [SaveToken, hm, ht]
  repeat' split
  all_goals rfl

/-- The file stored under the temporary name once it is closed after a
complete write. -/
theorem SaveToken_written {Token : Type} {J : Codec Token} {env : SaveEnv}
    {fs₁ fs₂ fs₃ fs₄ : FS} {dir tmp : String} {token : Token} {ws : List FS}
    {e₄ : Option String}
    (ht : TempFile env.tempFile env.tempDir fs₁ dir "token" = .ok (tmp, fs₂))
    (he : Encode J env.write fs₂ tmp token = (ws, fs₃, none))
    (hc : Close env.close fs₃ tmp = (fs₄, e₄)) :
    ∃ data, J.encoding token = .ok data ∧
      fs₄.files tmp = some ⟨data, 0o600⟩ := by
  obtain ⟨-, hf2, -, -⟩ := TempFile_ok ht
  have h2 : fs₂.files tmp = some ⟨"", 0o600⟩ := by
    rw [hf2]; exact setFile_files_self _ _ _
  obtain ⟨data, hd, h3⟩ := Encode_ok h2 he
  refine ⟨data, hd, ?_⟩
  simp only [Close, Prod.mk.injEq] at hc
  rw [← hc.1]
  simpa using h3

/-- The three kinds of exit of `SaveToken` and the file under the target path
after the first two: success, failure of the final chmod, failure of an
earlier step. -/
theorem SaveToken_final {Token : Type} (J : Codec Token) (env : SaveEnv)
    (fs₀ : FS) (path : String) (mode : FileMode) (token : Token) :
    ((SaveToken J env fs₀ path mode token).failed = none ∧
      (SaveToken J env fs₀ path mode token).err = none ∧
      ∃ data, J.encoding token = .ok data ∧
        (SaveToken J env fs₀ path mode token).fs.files path =
          some ⟨data, Perm mode⟩) ∨
    ((SaveToken J env fs₀ path mode token).failed = some .chmod ∧
      (∃ c, (SaveToken J env fs₀ path mode token).cause = some c ∧
        (SaveToken J env fs₀ path mode token).err = some (errChmod path c)) ∧
      ∃ data, J.encoding token = .ok data ∧
        (SaveToken J env fs₀ path mode token).fs.files path =
          some ⟨data, 0o600⟩) ∨
    ((∃ st, (SaveToken J env fs₀ path mode token).failed = some st ∧
        st ≠ .chmod) ∧
      (SaveToken J env fs₀ path mode token).err ≠ none) := by
  obtain ⟨ds, fs₁, e₁, hm, H⟩ := SaveToken_run J env fs₀ path mode token
  rcases H with ⟨err, rfl, hr⟩ | ⟨rfl, err, ht, hr⟩ |
    ⟨rfl, tmp, fs₂, ht, ws, fs₃, e₃, he, H⟩
  · rw [hr]
    exact Or.inr (Or.inr ⟨⟨_, rfl, by decide⟩, by simp⟩)
  · rw [hr]
    exact Or.inr (Or.inr ⟨⟨_, rfl, by decide⟩, by simp⟩)
  rcases H with ⟨err, rfl, hr⟩ | ⟨rfl, fs₄, e₄, hc, H⟩
  · rw [hr]
    exact Or.inr (Or.inr ⟨⟨_, rfl, by decide⟩, by simp⟩)
  obtain ⟨data, hd, hw⟩ := SaveToken_written ht he hc
  rcases H with ⟨err, rfl, hr⟩ | ⟨rfl, fs₅, e₅, hrn, H⟩
  · rw [hr]
    exact Or.inr (Or.inr ⟨⟨_, rfl, by decide⟩, by simp⟩)
  rcases H with ⟨err, rfl, hr⟩ | ⟨rfl, fs₆, e₆, hch, H⟩
  · rw [hr]
    exact Or.inr (Or.inr ⟨⟨_, rfl, by decide⟩, by simp⟩)
  obtain ⟨f, hf, h5, -⟩ := Rename_ok hrn
  rw [hw] at hf
  rcases H with ⟨err, rfl, hr⟩ | ⟨rfl, hr⟩
  · refine Or.inr (Or.inl ⟨by rw [hr], ⟨err, by rw [hr], by rw [hr]⟩,
      data, hd, ?_⟩)
    rw [hr]
    show fs₆.files path = _
    rw [Chmod_fail hch, h5, ← hf]
  · obtain ⟨g, hg, h6, -⟩ := Chmod_ok hch
    rw [h5, ← hf] at hg
    refine Or.inl ⟨by rw [hr], by rw [hr], data, hd, ?_⟩
    rw [hr]
    show fs₆.files path = _
    rw [h6, ← Option.some.inj hg]

/-! ## C1, C3: the temporary file can be the target itself -/

/-- C1 fails on the code: the target `d/token000000007` is absent before the
call and `TempFile` picks that very name; the temporary file is the target,
so right after its creation the target path holds an empty file, neither
absent as before nor the complete encoding, and the rename later moves the
file onto itself. -/
theorem SaveToken_target_partial_on_name_clash :
    (SaveToken exampleCodec (SaveEnv.quiet 7) FS.empty "d/token000000007" 0o600
        ⟨"abc"⟩).tempPath = some "d/token000000007" ∧
    ¬ ∀ s ∈ (SaveToken exampleCodec (SaveEnv.quiet 7) FS.empty
        "d/token000000007" 0o600 ⟨"abc"⟩).trace,
      OldOrNew exampleCodec ⟨"abc"⟩ FS.empty s "d/token000000007" := by
  refine ⟨by decide, ?_⟩
  intro H
  have hmem : ((SaveToken exampleCodec (SaveEnv.quiet 7) FS.empty
      "d/token000000007" 0o600 ⟨"abc"⟩).trace.get? 4).isSome = true := by decide
  obtain ⟨s, hs⟩ := Option.isSome_iff_exists.mp hmem
  have hc : ((SaveToken exampleCodec (SaveEnv.quiet 7) FS.empty
      "d/token000000007" 0o600 ⟨"abc"⟩).trace.get? 4).map
      (fun s => (s.files "d/token000000007").map File.content) =
      some (some "") := by decide
  rw [hs] at hc
  simp only [Option.map_some', Option.some.injEq] at hc
  rcases H s (List.get?_mem hs) with h1 | ⟨data, hd, h2⟩
  · rw [hc] at h1
    revert h1
    decide
  · rw [hc] at h2
    have hd2 : exampleCodec.encoding ⟨"abc"⟩ =
        .ok "\x7b\"access_token\":\"abc\"\x7d\n" := rfl
    rw [hd] at hd2
    simp only [Except.ok.injEq] at hd2
    rw [hd2] at h2
    revert h2
    decide

/-- C3 fails on the code: the target `d/token000000007` is absent before the
call, `TempFile` picks that very name and the write then fails; the call
returns the encode error and the target path now holds a truncated file.
Likewise for the target `a/`, absent before the call: step 1 creates it as a
directory, the rename onto it fails, and the directory stays. -/
theorem SaveToken_early_failure_name_clash :
    ((SaveToken exampleCodec (SaveEnv.diskFull 7) FS.empty "d/token000000007"
        0o600 ⟨"abc"⟩).failed = some .encode ∧
      FS.empty.files "d/token000000007" = none ∧
      (SaveToken exampleCodec (SaveEnv.diskFull 7) FS.empty "d/token000000007"
        0o600 ⟨"abc"⟩).fs.files "d/token000000007" =
        some ⟨"\x7b\"acc", 0o600⟩) ∧
    ((SaveToken exampleCodec (SaveEnv.quiet 7) FS.empty "a/" 0o600
        ⟨"abc"⟩).failed = some .rename ∧
      FS.empty.dirs "a/" = false ∧
      (SaveToken exampleCodec (SaveEnv.quiet 7) FS.empty "a/" 0o600
        ⟨"abc"⟩).fs.dirs "a/" = true) := by
  decide

/-! ## C2, C4, C6: what a completed rename publishes -/

/-- Reading back a published file: when the target holds `data` with the
owner's read bit set and neither the open nor the read fails, `LoadToken`
returns what the decoder makes of `data`. -/
theorem LoadToken_of_published {Token : Type} (J : Codec Token) (lenv : LoadEnv)
    (fs : FS) (path : String) (data : String) (perm : Nat)
    (hp : perm &&& 0o400 ≠ 0) (hopen : lenv.openFile = none)
    (hread : lenv.read = none) (hf : fs.files path = some ⟨data, perm⟩) :
    (∀ T, J.unmarshal data = .ok T → (LoadToken J lenv fs path).1 = .ok T) ∧
    (∀ e, J.unmarshal data = .error e →
      (LoadToken J lenv fs path).1 = .error (errDecodeToken path e)) := by
  constructor
  · intro T hT
    simp [LoadToken, Open, Decode, hopen, hread, hf, hp, hT]
  · intro e he
    simp [LoadToken, Open, Decode, hopen, hread, hf, hp, he]

/-- The example token round-trips through the example codec. -/
theorem exampleCodec_roundTrips : RoundTrips exampleCodec ⟨"abc"⟩ := by
  intro data hd
  have h : exampleCodec.encoding ⟨"abc"⟩ =
      .ok "\x7b\"access_token\":\"abc\"\x7d\n" := rfl
  rw [h] at hd
  simp only [Except.ok.injEq] at hd
  subst hd
  rfl

/-- C2 (as amended): if `SaveToken(path, mode, T)` returns no error and `mode`
grants the owner read permission, then `LoadToken(path)` on the resulting
file system, its open and read not failing, returns what the decoder makes of
the complete encoding of `T`: the decoded record, or the decode error; it
returns `T` itself whenever the codec round-trips `T`. -/
theorem SaveToken_LoadToken_roundtrip {Token : Type} (J : Codec Token)
    (env : SaveEnv) (lenv : LoadEnv) (fs₀ : FS) (path : String)
    (mode : FileMode) (T : Token) (hmode : Perm mode &&& 0o400 ≠ 0)
    (hopen : lenv.openFile = none) (hread : lenv.read = none)
    (hok : (SaveToken J env fs₀ path mode T).err = none) :
    ∃ data, J.encoding T = .ok data ∧
      (∀ T', J.unmarshal data = .ok T' →
        (LoadToken J lenv (SaveToken J env fs₀ path mode T).fs path).1 =
          .ok T') ∧
      (∀ e, J.unmarshal data = .error e →
        (LoadToken J lenv (SaveToken J env fs₀ path mode T).fs path).1 =
          .error (errDecodeToken path e)) ∧
      (RoundTrips J T →
        (LoadToken J lenv (SaveToken J env fs₀ path mode T).fs path).1 =
          .ok T) := by
  rcases SaveToken_final J env fs₀ path mode T with
    ⟨-, -, data, hd, hf⟩ | ⟨-, ⟨c, -, he⟩, -⟩ | ⟨-, h2⟩
  · have h := LoadToken_of_published J lenv _ path data _ hmode hopen hread hf
    exact ⟨data, hd, h.1, h.2, fun hT => h.1 T (hT data hd)⟩
  · rw [he] at hok
    simp at hok
  · exact absurd hok h2

/-- C2, an instance: the example token is saved with mode `0600` over an
earlier token file and loaded back. -/
theorem SaveToken_LoadToken_roundtrip_witness :
    (SaveToken exampleCodec (SaveEnv.quiet 7) FS.sample "d/token.json" 0o600
        ⟨"abc"⟩).err = none ∧
    (LoadToken exampleCodec LoadEnv.quiet
        (SaveToken exampleCodec (SaveEnv.quiet 7) FS.sample "d/token.json"
          0o600 ⟨"abc"⟩).fs "d/token.json").1 = .ok ⟨"abc"⟩ :=
  ⟨by decide,
   (SaveToken_LoadToken_roundtrip exampleCodec (SaveEnv.quiet 7) LoadEnv.quiet
     FS.sample "d/token.json" 0o600 ⟨"abc"⟩ (by decide) rfl rfl
     (by decide)).elim (fun _ h => h.2.2.2 exampleCodec_roundTrips)⟩

/-- C2 as stated fails in two ways.  With mode `0` the call succeeds and
leaves a file its owner may not read: `LoadToken` returns the open error,
although the token round-trips through the codec.  And a record need not
survive the codec: the empty number is written as `0` and read back as `0`. -/
theorem SaveToken_LoadToken_roundtrip_fails :
    (RoundTrips exampleCodec ⟨"abc"⟩ ∧
      (SaveToken exampleCodec (SaveEnv.quiet 7) FS.sample "d/token.json" 0
        ⟨"abc"⟩).err = none ∧
      ∃ msg, (LoadToken exampleCodec LoadEnv.quiet
        (SaveToken exampleCodec (SaveEnv.quiet 7) FS.sample "d/token.json" 0
          ⟨"abc"⟩).fs "d/token.json").1 = .error msg) ∧
    ((SaveToken exampleNumberCodec (SaveEnv.quiet 7) FS.sample "d/token.json"
        0o600 "").err = none ∧
      (LoadToken exampleNumberCodec LoadEnv.quiet
        (SaveToken exampleNumberCodec (SaveEnv.quiet 7) FS.sample
          "d/token.json" 0o600 "").fs "d/token.json").1 = .ok "0") :=
  ⟨⟨exampleCodec_roundTrips, by decide,
    "failed to open file (d/token.json) while loading token: " ++
      "open d/token.json: permission denied", rfl⟩,
   by decide, rfl⟩

/-- C4: if steps 1 to 5 of `SaveToken` succeed and the final chmod fails, the
call returns the chmod error, the target path nevertheless holds the complete
encoding of the new token, and `LoadToken(path)` returns that token. -/
theorem SaveToken_chmod_failure_publishes {Token : Type} (J : Codec Token)
    (env : SaveEnv) (lenv : LoadEnv) (fs₀ : FS) (path : String)
    (mode : FileMode) (T : Token) (hT : RoundTrips J T)
    (hopen : lenv.openFile = none) (hread : lenv.read = none)
    (hfail : (SaveToken J env fs₀ path mode T).failed = some .chmod) :
    (∃ c, (SaveToken J env fs₀ path mode T).cause = some c ∧
      (SaveToken J env fs₀ path mode T).err = some (errChmod path c)) ∧
    (∃ data, J.encoding T = .ok data ∧
      ((SaveToken J env fs₀ path mode T).fs.files path).map File.content =
        some data) ∧
    (LoadToken J lenv (SaveToken J env fs₀ path mode T).fs path).1 = .ok T := by
  rcases SaveToken_final J env fs₀ path mode T with
    ⟨h1, -, -⟩ | ⟨-, he, data, hd, hf⟩ | ⟨⟨st, h1, hst⟩, -⟩
  · rw [h1] at hfail
    simp at hfail
  · exact ⟨he, ⟨data, hd, by rw [hf]; rfl⟩,
      (LoadToken_of_published J lenv _ path data _ (by decide) hopen hread
        hf).1 T (hT data hd)⟩
  · rw [h1] at hfail
    exact absurd (Option.some.inj hfail) hst

/-- C4, an instance: the chmod fails, the error says so, and the new token is
what `LoadToken` reads. -/
theorem SaveToken_chmod_failure_publishes_witness :
    (SaveToken exampleCodec (SaveEnv.chmodFails 7) FS.sample "d/token.json"
        0o640 ⟨"abc"⟩).failed = some .chmod ∧
    (SaveToken exampleCodec (SaveEnv.chmodFails 7) FS.sample "d/token.json"
        0o640 ⟨"abc"⟩).err =
      some "failed to chmod the token file d/token.json: chmod: operation not permitted" ∧
    (LoadToken exampleCodec LoadEnv.quiet
        (SaveToken exampleCodec (SaveEnv.chmodFails 7) FS.sample
          "d/token.json" 0o640 ⟨"abc"⟩).fs "d/token.json").1 = .ok ⟨"abc"⟩ :=
  ⟨by decide, by decide,
   (SaveToken_chmod_failure_publishes exampleCodec (SaveEnv.chmodFails 7)
     LoadEnv.quiet FS.sample "d/token.json" 0o640 ⟨"abc"⟩
     exampleCodec_roundTrips rfl rfl (by decide)).2.2⟩

/-- C6: if `SaveToken(path, mode, token)` returns no error, the file at the
target path has the permission bits of the requested mode (the mode itself
when it consists of permission bits only), whatever the permissions of the
earlier target file and of the temporary file were. -/
theorem SaveToken_sets_mode {Token : Type} (J : Codec Token) (env : SaveEnv)
    (fs₀ : FS) (path : String) (mode : FileMode) (token : Token)
    (hok : (SaveToken J env fs₀ path mode token).err = none) :
    ∃ f, (SaveToken J env fs₀ path mode token).fs.files path = some f ∧
      f.perm = Perm mode ∧ (mode ≤ 0o777 → f.perm = mode) := by
  rcases SaveToken_final J env fs₀ path mode token with
    ⟨-, -, data, -, hf⟩ | ⟨-, ⟨c, -, he⟩, -⟩ | ⟨-, h2⟩
  · refine ⟨_, hf, rfl, fun hm => ?_⟩
    show mode &&& 2 ^ 9 - 1 = mode
    rw [Nat.and_pow_two_sub_one_eq_mod]
    exact Nat.mod_eq_of_lt (Nat.lt_of_le_of_lt hm (by decide))
  · rw [he] at hok
    simp at hok
  · exact absurd hok h2

/-- C6, an instance: the earlier file had mode `0644`, the temporary file
`0600`, the requested mode is `0640`. -/
theorem SaveToken_sets_mode_witness :
    (SaveToken exampleCodec (SaveEnv.quiet 7) FS.sample "d/token.json" 0o640
        ⟨"abc"⟩).err = none ∧
    ∃ f, (SaveToken exampleCodec (SaveEnv.quiet 7) FS.sample "d/token.json"
        0o640 ⟨"abc"⟩).fs.files "d/token.json" = some f ∧
      f.perm = Perm 0o640 ∧ (0o640 ≤ 0o777 → f.perm = 0o640) :=
  ⟨by decide,
   SaveToken_sets_mode exampleCodec (SaveEnv.quiet 7) FS.sample "d/token.json"
     0o640 ⟨"abc"⟩ (by decide)⟩

/-! ## C10: the handle of the temporary file -/

/-- The open handles after a call of `SaveToken`: the handle of the temporary
file is still open when the call returns the encode error, and on every other
exit the handles are those open before the call. -/
theorem SaveToken_handles {Token : Type} (J : Codec Token) (env : SaveEnv)
    (fs₀ : FS) (path : String) (mode : FileMode) (token : Token) :
    ((SaveToken J env fs₀ path mode token).failed = some .encode ∧
      ∃ tmp, (SaveToken J env fs₀ path mode token).tempPath = some tmp ∧
        (SaveToken J env fs₀ path mode token).fs.handles =
          tmp :: fs₀.handles) ∨
    ((SaveToken J env fs₀ path mode token).failed ≠ some .encode ∧
      (SaveToken J env fs₀ path mode token).fs.handles = fs₀.handles) := by
  obtain ⟨ds, fs₁, e₁, hm, H⟩ := SaveToken_run J env fs₀ path mode token
  obtain ⟨⟨-, hh1⟩, -⟩ := MkdirAll_frame hm
  rcases H with ⟨err, rfl, hr⟩ | ⟨rfl, err, ht, hr⟩ |
    ⟨rfl, tmp, fs₂, ht, ws, fs₃, e₃, he, H⟩
  · rw [hr]
    exact Or.inr ⟨by simp, hh1⟩
  · rw [hr]
    exact Or.inr ⟨by simp, hh1⟩
  obtain ⟨-, -, hh2, -⟩ := TempFile_ok ht
  have hh3 : fs₃.handles = tmp :: fs₀.handles := by
    have := (Encode_dirs J env.write fs₂ tmp token).2
    rw [he] at this
    rw [this, hh2, hh1]
  rcases H with ⟨err, rfl, hr⟩ | ⟨rfl, fs₄, e₄, hc, H⟩
  · rw [hr]
    exact Or.inl ⟨rfl, tmp, rfl, hh3⟩
  have hh4 : fs₄.handles = fs₀.handles := by
    simp only [Close, Prod.mk.injEq] at hc
    rw [← hc.1]
    simp [hh3]
  rcases H with ⟨err, rfl, hr⟩ | ⟨rfl, fs₅, e₅, hrn, H⟩
  · rw [hr]
    exact Or.inr ⟨by simp, hh4⟩
  have hh5 : fs₅.handles = fs₀.handles := by
    have := (Rename_frame env.rename fs₄ tmp path).2
    rw [hrn] at this
    rw [this, hh4]
  have hh6 : ∀ fs₆ e₆, Chmod env.chmod fs₅ path mode = (fs₆, e₆) →
      fs₆.handles = fs₀.handles := by
    intro fs₆ e₆ hch
    have := (Chmod_frame env.chmod fs₅ path mode).2
    rw [hch] at this
    rw [this, hh5]
  rcases H with ⟨err, rfl, hr⟩ | ⟨rfl, fs₆, e₆, hch, H⟩
  · rw [hr]
    exact Or.inr ⟨by simp, hh5⟩
  rcases H with ⟨err, rfl, hr⟩ | ⟨rfl, hr⟩
  · rw [hr]
    exact Or.inr ⟨by simp, hh6 _ _ hch⟩
  · rw [hr]
    exact Or.inr ⟨by simp, hh6 _ _ hch⟩

/-- C10 fails on the code: the write of the encoded token fails (disk full),
`SaveToken` returns the encode error without closing the temporary file, and
the handle on `d/token000000007` is still open after the call although no
handle was open before it. -/
theorem SaveToken_leaks_handle_on_encode_failure :
    (SaveToken exampleCodec (SaveEnv.diskFull 7) FS.sample "d/token.json"
        0o600 ⟨"abc"⟩).failed = some .encode ∧
    FS.sample.handles = [] ∧
    (SaveToken exampleCodec (SaveEnv.diskFull 7) FS.sample "d/token.json"
        0o600 ⟨"abc"⟩).fs.handles = ["d/token000000007"] := by
  decide

/-! ## Error messages -/

theorem Contains_append_right (a b : String) : Contains (a ++ b) b :=
  ⟨a.data, [], by simp [String.data_append]⟩

theorem Contains_append_of_left (a b c : String) (h : Contains a c) :
    Contains (a ++ b) c := by
  obtain ⟨s, t, h⟩ := h
  exact ⟨s, t ++ b.data, by simp [String.data_append, ← h]⟩

theorem tag_stepError (st : Step) (dir tmp path err : String) :
    tag (stepError st dir tmp path err) = stepTag st := by
  cases st <;>
    simp only [stepError, errMkdirAll, errTempFile, errEncode, errClose,
      errRename, errChmod, tag, stepTag, String.data_append, List.append_assoc] <;>
    rfl

theorem stepTag_injective (s₁ s₂ : Step) (h : stepTag s₁ = stepTag s₂) :
    s₁ = s₂ := by
  revert h
  cases s₁ <;> cases s₂ <;> decide

theorem stepError_names_cause (st : Step) (dir tmp path err : String) :
    Contains (stepError st dir tmp path err) err := by
  cases st <;> exact Contains_append_right _ _

theorem Contains_append_of_right (a b c : String) (h : Contains b c) :
    Contains (a ++ b) c := by
  obtain ⟨s, t, h⟩ := h
  exact ⟨a.data ++ s, t, by simp [String.data_append, ← h]⟩

theorem stepError_names_paths (st : Step) (dir tmp path err : String)
    (h : st = .tempFile → ∃ reason, err = "open " ++ tmp ++ ": " ++ reason) :
    ∀ p ∈ actedOn st dir tmp path,
      Contains (stepError st dir tmp path err) p := by
  cases st <;> simp only [actedOn, List.mem_cons, List.mem_singleton,
    List.not_mem_nil, or_false, forall_eq_or_imp, forall_eq]
  · exact Contains_append_of_left _ _ _ (Contains_append_of_left _ _ _
      (Contains_append_right _ _))
  · obtain ⟨reason, rfl⟩ := h rfl
    exact Contains_append_of_right _ _ _ (Contains_append_of_left _ _ _
      (Contains_append_of_left _ _ _ (Contains_append_right _ _)))
  · exact Contains_append_of_left _ _ _ (Contains_append_of_left _ _ _
      (Contains_append_right _ _))
  · exact Contains_append_of_left _ _ _ (Contains_append_of_left _ _ _
      (Contains_append_right _ _))
  · exact ⟨Contains_append_of_left _ _ _ (Contains_append_of_left _ _ _
        (Contains_append_of_left _ _ _ (Contains_append_of_left _ _ _
          (Contains_append_right _ _)))),
      Contains_append_of_left _ _ _ (Contains_append_of_left _ _ _
        (Contains_append_right _ _))⟩
  · exact Contains_append_of_left _ _ _ (Contains_append_of_left _ _ _
      (Contains_append_right _ _))

/-- The error of a failing call of `SaveToken` is the message of the step
that failed, built from the directory, the temporary file name, the target
path and the error of the failing call. -/
theorem SaveToken_error_shape {Token : Type} (J : Codec Token) (env : SaveEnv)
    (fs₀ : FS) (path : String) (mode : FileMode) (token : Token) :
    ((SaveToken J env fs₀ path mode token).err = none ∧
      (SaveToken J env fs₀ path mode token).failed = none) ∨
    ∃ st c, (SaveToken J env fs₀ path mode token).failed = some st ∧
      (SaveToken J env fs₀ path mode token).cause = some c ∧
      (SaveToken J env fs₀ path mode token).err =
        some (stepError st (Dir path)
          ((SaveToken J env fs₀ path mode token).tempPath.getD "") path c) := by
  obtain ⟨ds, fs₁, e₁, hm, H⟩ := SaveToken_run J env fs₀ path mode token
  rcases H with ⟨err, rfl, hr⟩ | ⟨rfl, err, ht, hr⟩ |
    ⟨rfl, tmp, fs₂, ht, ws, fs₃, e₃, he, H⟩
  · rw [hr]; exact Or.inr ⟨.mkdirAll, err, rfl, rfl, rfl⟩
  · rw [hr]; exact Or.inr ⟨.tempFile, err, rfl, rfl, rfl⟩
  rcases H with ⟨err, rfl, hr⟩ | ⟨rfl, fs₄, e₄, hc, H⟩
  · rw [hr]; exact Or.inr ⟨.encode, err, rfl, rfl, rfl⟩
  rcases H with ⟨err, rfl, hr⟩ | ⟨rfl, fs₅, e₅, hrn, H⟩
  · rw [hr]; exact Or.inr ⟨.close, err, rfl, rfl, rfl⟩
  rcases H with ⟨err, rfl, hr⟩ | ⟨rfl, fs₆, e₆, hch, H⟩
  · rw [hr]; exact Or.inr ⟨.rename, err, rfl, rfl, rfl⟩
  rcases H with ⟨err, rfl, hr⟩ | ⟨rfl, hr⟩
  · rw [hr]; exact Or.inr ⟨.chmod, err, rfl, rfl, rfl⟩
  · rw [hr]; exact Or.inl ⟨rfl, rfl⟩


theorem tempName_of_draw {env : SaveEnv} {r : Nat} (path : String)
    (h : env.tempFile = .ok r ∨ ∃ w, env.tempFile = .error (r, w)) :
    tempName env path = Join (Dir path) ("token" ++ nextRandom r) := by
  rcases h with h | ⟨w, h⟩ <;> simp [tempName, SaveEnv.draw, h]

/-- The temporary file of a call is the one `tempName` names. -/
theorem SaveToken_tempPath_eq {Token : Type} (J : Codec Token) (env : SaveEnv)
    (fs₀ : FS) (path : String) (mode : FileMode) (token : Token) (tmp : String)
    (h : (SaveToken J env fs₀ path mode token).tempPath = some tmp) :
    tmp = tempName env path := by
  obtain ⟨ds, fs₁, e₁, hm, H⟩ := SaveToken_run J env fs₀ path mode token
  rcases H with ⟨err, rfl, hr⟩ | ⟨rfl, err, ht, hr⟩ |
    ⟨rfl, tmp', fs₂, ht, -⟩
  · rw [hr] at h
    simp at h
  · rw [hr] at h
    simp at h
  · rw [SaveToken_tempPath J env fs₀ path mode token hm ht] at h
    obtain rfl := Option.some.inj h
    obtain ⟨-, -, -, r, hr, hname⟩ := TempFile_ok ht
    rw [if_neg (Dir_ne_empty path)] at hname
    rw [hname, tempName_of_draw path (Or.inl hr)]

/-- The error of a failing call of `SaveToken`, with the temporary file named
by `tempName`; the error of a failing `TempFile` starts with the name it tried
to create. -/
theorem SaveToken_error_detail {Token : Type} (J : Codec Token) (env : SaveEnv)
    (fs₀ : FS) (path : String) (mode : FileMode) (token : Token) :
    (SaveToken J env fs₀ path mode token).err = none ∨
    ∃ st c, (SaveToken J env fs₀ path mode token).failed = some st ∧
      (SaveToken J env fs₀ path mode token).cause = some c ∧
      (SaveToken J env fs₀ path mode token).err =
        some (stepError st (Dir path) (tempName env path) path c) ∧
      (st = .tempFile →
        ∃ reason, c = "open " ++ tempName env path ++ ": " ++ reason) := by
  rcases SaveToken_error_shape J env fs₀ path mode token with
    ⟨h1, -⟩ | ⟨st, c, hst, hc, he⟩
  · exact Or.inl h1
  right
  refine ⟨st, c, hst, hc, ?_, ?_⟩
  · cases htp : (SaveToken J env fs₀ path mode token).tempPath with
    | some tmp =>
      rw [htp] at he
      rw [he, ← SaveToken_tempPath_eq J env fs₀ path mode token tmp htp]
      rfl
    | none =>
      rw [htp] at he
      rw [he]
      obtain ⟨ds, fs₁, e₁, hm, H⟩ := SaveToken_run J env fs₀ path mode token
      rcases H with ⟨err, rfl, hr⟩ | ⟨rfl, err, ht, hr⟩ |
        ⟨rfl, tmp', fs₂, ht, -⟩
      · rw [hr] at hst
        obtain rfl := Option.some.inj hst
        rfl
      · rw [hr] at hst
        obtain rfl := Option.some.inj hst
        rfl
      · rw [SaveToken_tempPath J env fs₀ path mode token hm ht] at htp
        simp at htp
  · rintro rfl
    obtain ⟨ds, fs₁, e₁, hm, H⟩ := SaveToken_run J env fs₀ path mode token
    rcases H with ⟨err, rfl, hr⟩ | ⟨rfl, err, ht, hr⟩ |
      ⟨rfl, tmp', fs₂, ht, ws, fs₃, e₃, he', H⟩
    · rw [hr] at hst
      simp at hst
    · rw [hr] at hc
      obtain rfl := Option.some.inj hc
      obtain ⟨r, reason, hdraw, herr⟩ := TempFile_error ht
      rw [if_neg (Dir_ne_empty path)] at herr
      exact ⟨reason, by rw [herr, tempName_of_draw path hdraw]⟩
    · exfalso
      rcases H with ⟨err, rfl, hr⟩ | ⟨rfl, fs₄, e₄, hc', H⟩
      · rw [hr] at hst; simp at hst
      rcases H with ⟨err, rfl, hr⟩ | ⟨rfl, fs₅, e₅, hrn, H⟩
      · rw [hr] at hst; simp at hst
      rcases H with ⟨err, rfl, hr⟩ | ⟨rfl, fs₆, e₆, hch, H⟩
      · rw [hr] at hst; simp at hst
      rcases H with ⟨err, rfl, hr⟩ | ⟨rfl, hr⟩
      · rw [hr] at hst; simp at hst
      · rw [hr] at hst; simp at hst

/-- The errors of `LoadToken`: the open error or the decode error, each
wrapped with the path. -/
theorem LoadToken_error_shape {Token : Type} (J : Codec Token) (env : LoadEnv)
    (fs : FS) (path msg : String) :
    (LoadToken J env fs path).1 = .error msg ↔
      (∃ c, Open env.openFile fs path = .error c ∧ msg = errOpen path c) ∨
      (∃ f fs₁ c, Open env.openFile fs path = .ok (f, fs₁) ∧
        Decode J env.read f = .error c ∧ msg = errDecodeToken path c) := by
  unfold LoadToken
  rcases ho : Open env.openFile fs path with c | ⟨f, fs₁⟩
  · simp [eq_comm]
  · rcases hd : Decode J env.read f with c | tok
    · simp [hd, eq_comm]
    · simp [hd]

/-- The errors of `LoadCLITokens`: the open error or the decode error, each
wrapped with the path. -/
theorem LoadCLITokens_error_shape {CLIToken : Type} (J : Codec (List CLIToken))
    (env : LoadEnv) (fs : FS) (path msg : String) :
    (LoadCLITokens J env fs path).1 = .error msg ↔
      (∃ c, Open env.openFile fs path = .error c ∧ msg = errOpen path c) ∨
      (∃ f fs₁ c, Open env.openFile fs path = .ok (f, fs₁) ∧
        Decode J env.read f = .error c ∧ msg = errDecodeCLITokens path c) := by
  unfold LoadCLITokens
  rcases ho : Open env.openFile fs path with c | ⟨f, fs₁⟩
  · simp [eq_comm]
  · rcases hd : Decode J env.read f with c | tok
    · simp [hd, eq_comm]
    · simp [hd]

theorem Open_handles {o : Option String} {fs fs₁ : FS} {name : String} {f : Node}
    (h : Open o fs name = .ok (f, fs₁)) :
    (Close none fs₁ name).1 = fs := by
  unfold Open at h
  split at h
  · simp at h
  · split at h
    · split at h
      · simp at h
      · simp only [Except.ok.injEq, Prod.mk.injEq] at h
        obtain ⟨-, rfl⟩ := h
        simp [Close]
    · split at h
      · simp only [Except.ok.injEq, Prod.mk.injEq] at h
        obtain ⟨-, rfl⟩ := h
        simp [Close]
      · simp at h

/-- Neither reader changes the file system: the handle it opens is closed on
every exit. -/
theorem LoadToken_fs {Token : Type} (J : Codec Token) (env : LoadEnv)
    (fs : FS) (path : String) : (LoadToken J env fs path).2 = fs := by
  unfold LoadToken
  rcases ho : Open env.openFile fs path with c | ⟨f, fs₁⟩
  · rfl
  · have := Open_handles ho
    dsimp only
    rcases hd : Decode J env.read f with c | tok <;> simpa [Close] using this

theorem LoadCLITokens_fs {CLIToken : Type} (J : Codec (List CLIToken))
    (env : LoadEnv) (fs : FS) (path : String) :
    (LoadCLITokens J env fs path).2 = fs := by
  unfold LoadCLITokens
  rcases ho : Open env.openFile fs path with c | ⟨f, fs₁⟩
  · rfl
  · have := Open_handles ho
    dsimp only
    rcases hd : Decode J env.read f with c | tok <;> simpa [Close] using this

/-! ## C5: the errors of the readers -/

/-- C5: `LoadToken(path)`, and likewise `LoadCLITokens(path)`, returns an
error and no result exactly when opening the file fails or decoding its
content fails; the error message then contains the given path and the text of
the underlying cause; and the file system is unchanged by the call. -/
theorem Load_fails_iff_open_or_decode_fails {Token CLIToken : Type}
    (J : Codec Token) (JL : Codec (List CLIToken)) (env : LoadEnv) (fs : FS)
    (path : String) :
    ((LoadToken J env fs path).2 = fs ∧
      ((∃ msg, (LoadToken J env fs path).1 = .error msg) ↔
        ∃ c, OpenFails env fs path c ∨ DecodeFails J env fs path c) ∧
      ∀ msg, (LoadToken J env fs path).1 = .error msg →
        Contains msg path ∧
        ∃ c, (OpenFails env fs path c ∨ DecodeFails J env fs path c) ∧
          Contains msg c) ∧
    ((LoadCLITokens JL env fs path).2 = fs ∧
      ((∃ msg, (LoadCLITokens JL env fs path).1 = .error msg) ↔
        ∃ c, OpenFails env fs path c ∨ DecodeFails JL env fs path c) ∧
      ∀ msg, (LoadCLITokens JL env fs path).1 = .error msg →
        Contains msg path ∧
        ∃ c, (OpenFails env fs path c ∨ DecodeFails JL env fs path c) ∧
          Contains msg c) := by
  refine ⟨⟨LoadToken_fs J env fs path, ⟨?_, ?_⟩, ?_⟩,
    ⟨LoadCLITokens_fs JL env fs path, ⟨?_, ?_⟩, ?_⟩⟩
  · rintro ⟨msg, h⟩
    rcases (LoadToken_error_shape J env fs path msg).mp h with
      ⟨c, ho, -⟩ | ⟨f, fs₁, c, ho, hd, -⟩
    · exact ⟨c, Or.inl ho⟩
    · exact ⟨c, Or.inr ⟨f, fs₁, ho, hd⟩⟩
  · rintro ⟨c, ho | ⟨f, fs₁, ho, hd⟩⟩
    · exact ⟨_, (LoadToken_error_shape J env fs path _).mpr
        (Or.inl ⟨c, ho, rfl⟩)⟩
    · exact ⟨_, (LoadToken_error_shape J env fs path _).mpr
        (Or.inr ⟨f, fs₁, c, ho, hd, rfl⟩)⟩
  · intro msg h
    rcases (LoadToken_error_shape J env fs path msg).mp h with
      ⟨c, ho, rfl⟩ | ⟨f, fs₁, c, ho, hd, rfl⟩
    · exact ⟨Contains_append_of_left _ _ _ (Contains_append_of_left _ _ _
        (Contains_append_right _ _)), c, Or.inl ho, Contains_append_right _ _⟩
    · exact ⟨Contains_append_of_left _ _ _ (Contains_append_of_left _ _ _
        (Contains_append_right _ _)), c, Or.inr ⟨f, fs₁, ho, hd⟩,
        Contains_append_right _ _⟩
  · rintro ⟨msg, h⟩
    rcases (LoadCLITokens_error_shape JL env fs path msg).mp h with
      ⟨c, ho, -⟩ | ⟨f, fs₁, c, ho, hd, -⟩
    · exact ⟨c, Or.inl ho⟩
    · exact ⟨c, Or.inr ⟨f, fs₁, ho, hd⟩⟩
  · rintro ⟨c, ho | ⟨f, fs₁, ho, hd⟩⟩
    · exact ⟨_, (LoadCLITokens_error_shape JL env fs path _).mpr
        (Or.inl ⟨c, ho, rfl⟩)⟩
    · exact ⟨_, (LoadCLITokens_error_shape JL env fs path _).mpr
        (Or.inr ⟨f, fs₁, c, ho, hd, rfl⟩)⟩
  · intro msg h
    rcases (LoadCLITokens_error_shape JL env fs path msg).mp h with
      ⟨c, ho, rfl⟩ | ⟨f, fs₁, c, ho, hd, rfl⟩
    · exact ⟨Contains_append_of_left _ _ _ (Contains_append_of_left _ _ _
        (Contains_append_right _ _)), c, Or.inl ho, Contains_append_right _ _⟩
    · exact ⟨Contains_append_of_left _ _ _ (Contains_append_of_left _ _ _
        (Contains_append_right _ _)), c, Or.inr ⟨f, fs₁, ho, hd⟩,
        Contains_append_right _ _⟩

/-- C5, an instance: the file `d/token.json` holds `old`, which is not a
token; `LoadToken` returns the decode error, which names the path. -/
theorem Load_fails_iff_open_or_decode_fails_witness :
    (LoadToken exampleCodec LoadEnv.quiet FS.sample "d/token.json").1 =
      .error ("failed to decode contents of file (d/token.json) into Token " ++
        "representation: invalid character looking for beginning of value") ∧
    Contains ("failed to decode contents of file (d/token.json) into Token " ++
        "representation: invalid character looking for beginning of value")
      "d/token.json" :=
  ⟨rfl,
   ((Load_fails_iff_open_or_decode_fails exampleCodec exampleListCodec
      LoadEnv.quiet FS.sample "d/token.json").1.2.2 _ rfl).1⟩

/-! ## C7: what the error messages carry -/

/-- C7: every error returned by `SaveToken`, `LoadToken` or `LoadCLITokens`,
at whichever step it arises, contains the text of the underlying cause and
the path the failing step acted on: the directory for `MkdirAll`, the
temporary file for `TempFile` (named by the error of the failing open), for
the encode and for the close, the temporary file and the target for the
rename, the target for the chmod, the given path for the readers. -/
theorem errors_name_cause_and_path {Token CLIToken : Type} (J : Codec Token)
    (JL : Codec (List CLIToken)) (env : SaveEnv) (lenv : LoadEnv) (fs : FS)
    (path : String) (mode : FileMode) (token : Token) :
    (∀ msg, (SaveToken J env fs path mode token).err = some msg →
      ∃ st c, (SaveToken J env fs path mode token).failed = some st ∧
        (SaveToken J env fs path mode token).cause = some c ∧
        Contains msg c ∧
        ∀ p ∈ actedOn st (Dir path) (tempName env path) path,
          Contains msg p) ∧
    (∀ tmp, (SaveToken J env fs path mode token).tempPath = some tmp →
      tmp = tempName env path) ∧
    (∀ msg, (LoadToken J lenv fs path).1 = .error msg →
      Contains msg path ∧
      ∃ c, (OpenFails lenv fs path c ∨ DecodeFails J lenv fs path c) ∧
        Contains msg c) ∧
    (∀ msg, (LoadCLITokens JL lenv fs path).1 = .error msg →
      Contains msg path ∧
      ∃ c, (OpenFails lenv fs path c ∨ DecodeFails JL lenv fs path c) ∧
        Contains msg c) := by
  refine ⟨?_, SaveToken_tempPath_eq J env fs path mode token, ?_, ?_⟩
  · intro msg h
    rcases SaveToken_error_detail J env fs path mode token with
      h1 | ⟨st, c, hst, hc, he, hopen⟩
    · rw [h1] at h
      simp at h
    · rw [he] at h
      obtain rfl := Option.some.inj h
      exact ⟨st, c, hst, hc, stepError_names_cause _ _ _ _ _,
        stepError_names_paths _ _ _ _ _ hopen⟩
  · intro msg h
    rcases (LoadToken_error_shape J lenv fs path msg).mp h with
      ⟨c, ho, rfl⟩ | ⟨f, fs₁, c, ho, hd, rfl⟩
    · exact ⟨Contains_append_of_left _ _ _ (Contains_append_of_left _ _ _
        (Contains_append_right _ _)), c, Or.inl ho, Contains_append_right _ _⟩
    · exact ⟨Contains_append_of_left _ _ _ (Contains_append_of_left _ _ _
        (Contains_append_right _ _)), c, Or.inr ⟨f, fs₁, ho, hd⟩,
        Contains_append_right _ _⟩
  · intro msg h
    rcases (LoadCLITokens_error_shape JL lenv fs path msg).mp h with
      ⟨c, ho, rfl⟩ | ⟨f, fs₁, c, ho, hd, rfl⟩
    · exact ⟨Contains_append_of_left _ _ _ (Contains_append_of_left _ _ _
        (Contains_append_right _ _)), c, Or.inl ho, Contains_append_right _ _⟩
    · exact ⟨Contains_append_of_left _ _ _ (Contains_append_of_left _ _ _
        (Contains_append_right _ _)), c, Or.inr ⟨f, fs₁, ho, hd⟩,
        Contains_append_right _ _⟩

/-- C7, an instance: `SaveToken("cred", ...)` works in the directory `.`;
creating the temporary file `token000000007` fails; the message carries the
cause, which names that file. -/
theorem errors_name_cause_and_path_witness :
    (SaveToken exampleCodec (SaveEnv.noTempFile 7) FS.empty "cred" 0o600
        ⟨"abc"⟩).err =
      some ("failed to create the temp file to write the token: " ++
        "open token000000007: too many open files") ∧
    tempName (SaveEnv.noTempFile 7) "cred" = "token000000007" ∧
    ∃ st c, (SaveToken exampleCodec (SaveEnv.noTempFile 7) FS.empty "cred"
        0o600 ⟨"abc"⟩).failed = some st ∧
      (SaveToken exampleCodec (SaveEnv.noTempFile 7) FS.empty "cred" 0o600
        ⟨"abc"⟩).cause = some c ∧
      Contains ("failed to create the temp file to write the token: " ++
        "open token000000007: too many open files") c ∧
      ∀ p ∈ actedOn st (Dir "cred") (tempName (SaveEnv.noTempFile 7) "cred")
          "cred",
        Contains ("failed to create the temp file to write the token: " ++
          "open token000000007: too many open files") p :=
  ⟨by decide, by decide,
   (errors_name_cause_and_path exampleCodec exampleListCodec
      (SaveEnv.noTempFile 7) LoadEnv.quiet FS.empty "cred" 0o600
      ⟨"abc"⟩).1 _ (by decide)⟩

/-! ## C8: the errors of the six steps are distinguishable -/

/-- C8: an error `SaveToken` produces for one step is never equal to an error
it produces for a different step, whatever the directory, the temporary file
name, the target path and the cause; so two calls that fail at different
steps (or of which one succeeds) return different errors, and in particular
a chmod error is never a rename error. -/
theorem SaveToken_errors_distinguish_steps :
    (∀ (s₁ s₂ : Step) (d₁ t₁ p₁ c₁ d₂ t₂ p₂ c₂ : String), s₁ ≠ s₂ →
      stepError s₁ d₁ t₁ p₁ c₁ ≠ stepError s₂ d₂ t₂ p₂ c₂) ∧
    (∀ {Token : Type} (J : Codec Token) (env env' : SaveEnv) (fs fs' : FS)
      (path path' : String) (mode mode' : FileMode) (token token' : Token),
      (SaveToken J env fs path mode token).failed ≠
        (SaveToken J env' fs' path' mode' token').failed →
      (SaveToken J env fs path mode token).err ≠
        (SaveToken J env' fs' path' mode' token').err) ∧
    (∀ p c t' p' c' : String, errChmod p c ≠ errRename t' p' c') := by
  have key : ∀ (s₁ s₂ : Step) (d₁ t₁ p₁ c₁ d₂ t₂ p₂ c₂ : String), s₁ ≠ s₂ →
      stepError s₁ d₁ t₁ p₁ c₁ ≠ stepError s₂ d₂ t₂ p₂ c₂ := by
    intro s₁ s₂ d₁ t₁ p₁ c₁ d₂ t₂ p₂ c₂ hne heq
    apply hne
    apply stepTag_injective
    rw [← tag_stepError s₁ d₁ t₁ p₁ c₁, ← tag_stepError s₂ d₂ t₂ p₂ c₂, heq]
  refine ⟨key, ?_, ?_⟩
  · intro Token J env env' fs fs' path path' mode mode' token token' hne heq
    rcases SaveToken_error_shape J env fs path mode token with
      ⟨h1, h2⟩ | ⟨st, c, hst, -, he⟩ <;>
    rcases SaveToken_error_shape J env' fs' path' mode' token' with
      ⟨h1', h2'⟩ | ⟨st', c', hst', -, he'⟩
    · exact hne (by rw [h2, h2'])
    · rw [h1, he'] at heq
      simp at heq
    · rw [he, h1'] at heq
      simp at heq
    · rw [he, he'] at heq
      have hs : st ≠ st' := by
        rintro rfl
        exact hne (by rw [hst, hst'])
      exact key _ _ _ _ _ _ _ _ _ _ hs (Option.some.inj heq)
  · intro p c t' p' c'
    exact key .chmod .rename "" "" p c "" t' p' c' (by decide)

/-- C8, an instance: a chmod error and a rename error for the same paths and
the same cause differ. -/
theorem SaveToken_errors_distinguish_steps_witness :
    Step.chmod ≠ Step.rename ∧
    stepError .chmod "d" "d/token000000007" "d/token.json" "permission denied" ≠
      stepError .rename "d" "d/token000000007" "d/token.json"
        "permission denied" :=
  ⟨by decide,
   SaveToken_errors_distinguish_steps.1 .chmod .rename _ _ _ _ _ _ _ _
     (by decide)⟩

/-! ## `filepath.Dir` of a joined name -/

theorem elements_ne_nil (p : List Char) : elements p ≠ [] := by
  cases p with
  | nil => simp [elements]
  | cons c cs =>
    unfold elements
    split
    · simp
    · split <;> simp

theorem elements_of_not_mem {p : List Char} (h : '/' ∉ p) : elements p = [p] := by
  induction p with
  | nil => rfl
  | cons c cs ih =>
    simp only [List.mem_cons, not_or] at h
    have hc : c ≠ '/' := fun e => h.1 e.symm
    simp [elements, hc, ih h.2]

theorem elements_cons_ne {c : Char} {cs e : List Char} {es : List (List Char)}
    (hc : c ≠ '/') (h : elements cs = e :: es) :
    elements (c :: cs) = (c :: e) :: es := by
  simp [elements, hc, h]

theorem elements_append_sep (a b : List Char) :
    elements (a ++ '/' :: b) = elements a ++ elements b := by
  induction a with
  | nil => simp [elements]
  | cons c a ih =>
    by_cases hc : c = '/'
    · simp [elements, hc, ih]
    · cases h : elements a with
      | nil => exact absurd h (elements_ne_nil a)
      | cons e es =>
        rw [h] at ih
        rw [List.cons_append, elements_cons_ne hc ih, elements_cons_ne hc h]
        rfl

theorem elements_no_sep (p : List Char) : ∀ e ∈ elements p, '/' ∉ e := by
  induction p with
  | nil => simp [elements]
  | cons c cs ih =>
    by_cases hc : c = '/'
    · simp only [elements, hc, if_true, List.mem_cons]
      rintro e (rfl | he)
      · simp
      · exact ih e he
    · simp only [elements, hc, if_false]
      cases h : elements cs with
      | nil => exact absurd h (elements_ne_nil cs)
      | cons e es =>
        rw [h] at ih
        simp only [List.mem_cons]
        rintro x (rfl | hx)
        · simp only [List.mem_cons, not_or]
          exact ⟨fun e' => hc e'.symm, ih e (by simp)⟩
        · exact ih x (by simp [hx])

theorem joinElems_cons (e : List Char) (es : List (List Char)) (h : es ≠ []) :
    joinElems (e :: es) = e ++ '/' :: joinElems es := by
  cases es with
  | nil => exact absurd rfl h
  | cons e' es => rfl

theorem joinElems_append_singleton (es : List (List Char)) (n : List Char)
    (h : es ≠ []) : joinElems (es ++ [n]) = joinElems es ++ '/' :: n := by
  induction es with
  | nil => exact absurd rfl h
  | cons e es ih =>
    cases es with
    | nil => rfl
    | cons e' es =>
      have h1 : joinElems (e :: (e' :: es ++ [n])) =
          e ++ '/' :: joinElems (e' :: es ++ [n]) :=
        joinElems_cons _ _ (by simp)
      have h2 : joinElems (e :: e' :: es) = e ++ '/' :: joinElems (e' :: es) :=
        rfl
      rw [List.cons_append, h1, ih (by simp), h2]
      simp

theorem elements_joinElems {es : List (List Char)} (hne : es ≠ [])
    (h : ∀ e ∈ es, '/' ∉ e) : elements (joinElems es) = es := by
  induction es with
  | nil => exact absurd rfl hne
  | cons e es ih =>
    cases es with
    | nil => exact elements_of_not_mem (h e (by simp))
    | cons e' es =>
      rw [joinElems_cons _ _ (by simp), elements_append_sep,
        elements_of_not_mem (h e (by simp)),
        ih (by simp) (fun x hx => h x (List.mem_cons_of_mem _ hx))]
      rfl

theorem cleanStep_empty (rooted : Bool) (out : List (List Char)) :
    cleanStep rooted out [] = out := by
  simp [cleanStep]

theorem cleanStep_dot (rooted : Bool) (out : List (List Char)) :
    cleanStep rooted out ['.'] = out := by
  simp [cleanStep]

theorem NormalOut_of_dotdots {out : List (List Char)}
    (h : ∀ e ∈ out, e = ['.', '.']) : NormalOut false out := by
  induction out with
  | nil => trivial
  | cons e out _ =>
    exact Or.inr ⟨h e (by simp), rfl, fun x hx => h x (by simp [hx])⟩

theorem NormalOut_tail {rooted : Bool} {e : List Char} {out : List (List Char)}
    (h : NormalOut rooted (e :: out)) : NormalOut rooted out := by
  rcases h with ⟨-, h⟩ | ⟨-, hr, h⟩
  · exact h
  · subst hr
    exact NormalOut_of_dotdots h

theorem NormalOut_append_right {rooted : Bool} (xs ys : List (List Char))
    (h : NormalOut rooted (xs ++ ys)) : NormalOut rooted ys := by
  induction xs with
  | nil => exact h
  | cons x xs ih => exact ih (NormalOut_tail h)

theorem cleanStep_push {rooted : Bool} {e : List Char} {out : List (List Char)}
    (h : NormalOut rooted (e :: out)) : cleanStep rooted out e = e :: out := by
  rcases h with ⟨⟨h1, h2, h3, -⟩, -⟩ | ⟨rfl, hr, h⟩
  · simp [cleanStep, h1, h2, h3]
  · subst hr
    cases out with
    | nil => simp [cleanStep]
    | cons top rest =>
      have := h top (by simp)
      subst this
      simp [cleanStep]

theorem foldl_cleanStep_normal {rooted : Bool} (es acc : List (List Char))
    (h : NormalOut rooted (es.reverse ++ acc)) :
    es.foldl (cleanStep rooted) acc = es.reverse ++ acc := by
  induction es generalizing acc with
  | nil => rfl
  | cons e es ih =>
    rw [List.reverse_cons, List.append_assoc] at h
    have h2 : NormalOut rooted (e :: acc) := NormalOut_append_right _ _ h
    have h3 : NormalOut rooted (es.reverse ++ (e :: acc)) := h
    rw [List.foldl_cons, cleanStep_push h2, ih _ h3]
    simp

theorem cleanStep_normal {rooted : Bool} {e : List Char} {out : List (List Char)}
    (h : NormalOut rooted out) (he : '/' ∉ e) :
    NormalOut rooted (cleanStep rooted out e) := by
  unfold cleanStep
  split
  · exact h
  · rename_i h1
    simp only [not_or] at h1
    split
    · rename_i h2
      subst h2
      cases out with
      | nil =>
        cases rooted
        · exact Or.inr ⟨rfl, rfl, by simp⟩
        · trivial
      | cons top rest =>
        simp only []
        split
        · rename_i h3
          subst h3
          rcases h with ⟨⟨-, -, h4, -⟩, -⟩ | ⟨-, hr, h⟩
          · exact absurd rfl h4
          · refine Or.inr ⟨rfl, hr, ?_⟩
            intro x hx
            rcases List.mem_cons.mp hx with rfl | hx
            · rfl
            · exact h x hx
        · exact NormalOut_tail h
    · rename_i h2
      exact Or.inl ⟨⟨h1.1, h1.2, h2, he⟩, h⟩

theorem foldl_cleanStep_NormalOut {rooted : Bool} (es acc : List (List Char))
    (hes : ∀ e ∈ es, '/' ∉ e) (h : NormalOut rooted acc) :
    NormalOut rooted (es.foldl (cleanStep rooted) acc) := by
  induction es generalizing acc with
  | nil => exact h
  | cons e es ih =>
    exact ih _ (fun x hx => hes x (by simp [hx]))
      (cleanStep_normal h (hes e (by simp)))

theorem NormalOut_elems {rooted : Bool} {out : List (List Char)}
    (h : NormalOut rooted out) : ∀ e ∈ out, e ≠ [] ∧ '/' ∉ e := by
  induction out with
  | nil => simp
  | cons top rest ih =>
    intro e he
    rcases List.mem_cons.mp he with rfl | he
    · rcases h with ⟨⟨h1, -, -, h4⟩, -⟩ | ⟨rfl, -, -⟩
      · exact ⟨h1, h4⟩
      · exact ⟨by simp, by decide⟩
    · exact ih (NormalOut_tail h) e he


theorem cleanChars_normal (x : List Char) :
    ∃ rooted out, NormalOut rooted out ∧
      cleanChars x = orDot (renderPath rooted out.reverse) := by
  by_cases hx : x = []
  · exact ⟨false, [], trivial, by subst hx; rfl⟩
  · refine ⟨decide (x.head? = some '/'), _,
      foldl_cleanStep_NormalOut (elements x) [] (elements_no_sep x) trivial, ?_⟩
    simp [cleanChars, hx]

theorem cleanChars_of_fold {p : List Char} (rooted : Bool)
    (out : List (List Char)) (hp : p ≠ [])
    (hr : p.head? = some '/' ↔ rooted = true)
    (hf : (elements p).foldl (cleanStep rooted) [] = out) :
    cleanChars p = orDot (renderPath rooted out.reverse) := by
  have hd : decide (p.head? = some '/') = rooted := by
    cases rooted
    · simpa using hr
    · simpa using hr
  simp only [cleanChars, hp, if_false, hd, hf]

theorem joinElems_eq_nil {es : List (List Char)} (h : ∀ e ∈ es, e ≠ [])
    (hj : joinElems es = []) : es = [] := by
  cases es with
  | nil => rfl
  | cons e es =>
    exfalso
    cases es with
    | nil => exact h e (by simp) hj
    | cons e' es =>
      rw [joinElems_cons _ _ (by simp)] at hj
      simp at hj

theorem joinElems_head {c : Char} {e : List Char} (es : List (List Char))
    (rest : List Char) :
    (joinElems ((c :: e) :: es) ++ rest).head? = some c := by
  cases es with
  | nil => rfl
  | cons e' es => rfl

theorem head_renderPath {rooted : Bool} {out : List (List Char)}
    (h : NormalOut rooted out) (rest : List Char)
    (hne : renderPath rooted out.reverse ≠ []) :
    (renderPath rooted out.reverse ++ rest).head? = some '/' ↔
      rooted = true := by
  cases rooted with
  | true => simp [renderPath]
  | false =>
    simp only [renderPath, Bool.false_eq_true, if_false, List.nil_append,
      iff_false] at hne ⊢
    cases hes : out.reverse with
    | nil => rw [hes] at hne; exact absurd rfl hne
    | cons e es =>
      have he : e ∈ out := by
        rw [← List.mem_reverse, hes]; simp
      obtain ⟨h1, h2⟩ := NormalOut_elems h e he
      cases e with
      | nil => exact absurd rfl h1
      | cons c e =>
        rw [joinElems_head]
        simp only [List.mem_cons, not_or] at h2
        intro hc
        exact h2.1 (Option.some.inj hc).symm

theorem renderPath_snoc_ne_nil (rooted : Bool) (es : List (List Char))
    {n : List Char} (hn : n ≠ []) : renderPath rooted (es ++ [n]) ≠ [] := by
  cases rooted with
  | true => simp [renderPath]
  | false =>
    simp only [renderPath, Bool.false_eq_true, if_false, List.nil_append]
    cases es with
    | nil => exact hn
    | cons e es =>
      rw [joinElems_append_singleton _ _ (by simp)]
      simp

theorem renderPath_snoc (rooted : Bool) {es : List (List Char)} (n : List Char)
    (hes : es ≠ []) :
    renderPath rooted (es ++ [n]) = renderPath rooted es ++ '/' :: n := by
  simp [renderPath, joinElems_append_singleton _ _ hes]

/-- Cleaning a cleaned path with one more proper element appended keeps the
elements and adds the new one. -/
theorem cleanChars_join {rooted : Bool} {out : List (List Char)}
    (h : NormalOut rooted out) {n : List Char} (hn : Real n) :
    cleanChars (orDot (renderPath rooted out.reverse) ++ '/' :: n) =
      renderPath rooted (out.reverse ++ [n]) := by
  have hnn : '/' ∉ n := hn.2.2.2
  have hN : NormalOut rooted (n :: out) := Or.inl ⟨hn, h⟩
  have hsep : ∀ e ∈ out.reverse, '/' ∉ e := fun e he =>
    (NormalOut_elems h e (List.mem_reverse.mp he)).2
  have hfold : (out.reverse ++ [n]).foldl (cleanStep rooted) [] = n :: out := by
    rw [foldl_cleanStep_normal _ _ (by simpa using hN)]
    simp
  have hres : orDot (renderPath rooted (out.reverse ++ [n])) =
      renderPath rooted (out.reverse ++ [n]) := by
    unfold orDot
    rw [if_neg (renderPath_snoc_ne_nil _ _ hn.1)]
  by_cases hE : renderPath rooted out.reverse = []
  · have hr : rooted = false := by
      cases rooted
      · rfl
      · simp [renderPath] at hE
    subst hr
    have ho : out.reverse = [] := by
      apply joinElems_eq_nil
        (fun e he => (NormalOut_elems h e (List.mem_reverse.mp he)).1)
      simpa [renderPath] using hE
    have hout : out = [] := by simpa using ho
    subst hout
    have hp : orDot (renderPath false ([] : List (List Char)).reverse) ++
        '/' :: n = ['.'] ++ '/' :: n := rfl
    rw [hp, cleanChars_of_fold false [n] (by simp)
      (by simp)]
    · simpa using hres
    · rw [elements_append_sep, elements_of_not_mem hnn]
      have : elements ['.'] = [['.']] := rfl
      rw [this]
      simpa [cleanStep_dot] using hfold
  · have hor : orDot (renderPath rooted out.reverse) =
        renderPath rooted out.reverse := by
      unfold orDot; rw [if_neg hE]
    rw [hor, cleanChars_of_fold rooted (n :: out) (by simp)
      (head_renderPath h _ hE)]
    · simpa using hres
    · cases rooted with
      | true =>
        have hp : renderPath true out.reverse ++ '/' :: n =
            [] ++ '/' :: (joinElems out.reverse ++ '/' :: n) := by
          simp [renderPath]
        rw [hp, elements_append_sep, elements_append_sep,
          elements_of_not_mem hnn]
        by_cases ho : out.reverse = []
        · rw [ho] at hfold ⊢
          simpa [elements, joinElems, cleanStep_empty] using hfold
        · rw [elements_joinElems ho hsep]
          simpa [elements, cleanStep_empty] using hfold
      | false =>
        have ho : out.reverse ≠ [] := by
          intro ho
          apply hE
          simp [renderPath, ho, joinElems]
        have hp : renderPath false out.reverse ++ '/' :: n =
            joinElems out.reverse ++ '/' :: n := by
          simp [renderPath]
        rw [hp, elements_append_sep, elements_of_not_mem hnn,
          elements_joinElems ho hsep]
        exact hfold

theorem dropWhile_append_all {α : Type} (p : α → Bool) (l r : List α)
    (h : ∀ x ∈ l, p x = true) : (l ++ r).dropWhile p = r.dropWhile p := by
  induction l with
  | nil => rfl
  | cons a l ih =>
    rw [List.cons_append, List.dropWhile_cons, if_pos (h a (by simp))]
    exact ih (fun x hx => h x (by simp [hx]))

theorem dirPrefix_of_not_mem {n : List Char} (h : '/' ∉ n) : dirPrefix n = [] := by
  unfold dirPrefix
  have := dropWhile_append_all (fun c => decide (c ≠ '/')) n.reverse []
    (by
      intro x hx
      have hx2 : x ∈ n := List.mem_reverse.mp hx
      simp only [decide_eq_true_eq]
      rintro rfl
      exact h hx2)
  simp only [List.append_nil, List.dropWhile_nil] at this
  rw [this]
  rfl

theorem dirPrefix_append_sep (a : List Char) {n : List Char} (h : '/' ∉ n) :
    dirPrefix (a ++ '/' :: n) = a ++ ['/'] := by
  unfold dirPrefix
  have hrev : (a ++ '/' :: n).reverse = n.reverse ++ '/' :: a.reverse := by
    simp
  rw [hrev, dropWhile_append_all (fun c => decide (c ≠ '/')) n.reverse _
    (by
      intro x hx
      have hx2 : x ∈ n := List.mem_reverse.mp hx
      simp only [decide_eq_true_eq]
      rintro rfl
      exact h hx2)]
  simp

/-- Dropping the last element of a cleaned path and cleaning again gives the
cleaned path without that element. -/
theorem cleanChars_dirPrefix {rooted : Bool} {out : List (List Char)}
    (h : NormalOut rooted out) {n : List Char} (hn : Real n) :
    cleanChars (dirPrefix (renderPath rooted (out.reverse ++ [n]))) =
      orDot (renderPath rooted out.reverse) := by
  have hnn : '/' ∉ n := hn.2.2.2
  have hsep : ∀ e ∈ out.reverse, '/' ∉ e := fun e he =>
    (NormalOut_elems h e (List.mem_reverse.mp he)).2
  have hfold : out.reverse.foldl (cleanStep rooted) [] = out := by
    rw [foldl_cleanStep_normal _ _ (by simpa using h)]
    simp
  by_cases ho : out.reverse = []
  · have hout : out = [] := by simpa using ho
    subst hout
    cases rooted with
    | true =>
      have hp : renderPath true (([] : List (List Char)).reverse ++ [n]) =
          [] ++ '/' :: n := rfl
      rw [hp, dirPrefix_append_sep _ hnn]
      rfl
    | false =>
      have hp : renderPath false (([] : List (List Char)).reverse ++ [n]) = n :=
        rfl
      rw [hp, dirPrefix_of_not_mem hnn]
      rfl
  · have hE : renderPath rooted out.reverse ≠ [] := by
      intro hE
      apply ho
      apply joinElems_eq_nil
        (fun e he => (NormalOut_elems h e (List.mem_reverse.mp he)).1)
      cases rooted
      · simpa [renderPath] using hE
      · simp [renderPath] at hE
    rw [renderPath_snoc rooted n ho, dirPrefix_append_sep _ hnn,
      cleanChars_of_fold rooted out (by simp) (head_renderPath h _ hE)]
    cases rooted with
    | true =>
      have hp : renderPath true out.reverse ++ ['/'] =
          [] ++ '/' :: (joinElems out.reverse ++ '/' :: []) := by
        simp [renderPath]
      rw [hp, elements_append_sep, elements_append_sep,
        elements_joinElems ho hsep]
      simpa [elements, cleanStep_empty, List.foldl_append] using hfold
    | false =>
      have hp : renderPath false out.reverse ++ ['/'] =
          joinElems out.reverse ++ '/' :: [] := by
        simp [renderPath]
      rw [hp, elements_append_sep, elements_joinElems ho hsep]
      simpa [elements, cleanStep_empty, List.foldl_append] using hfold

theorem digitChar_ne_sep (d : Nat) : digitChar d ≠ '/' := by
  unfold digitChar
  repeat' split
  all_goals decide

theorem tempName_real (r : Nat) : Real ("token" ++ nextRandom r).data := by
  have hd : ("token" ++ nextRandom r).data =
      't' :: 'o' :: 'k' :: 'e' :: 'n' :: (nextRandom r).data := rfl
  rw [hd]
  refine ⟨by simp, by simp, by simp, ?_⟩
  simp only [nextRandom, List.mem_cons, List.mem_map, not_or, not_exists,
    not_and]
  refine ⟨by decide, by decide, by decide, by decide, by decide, ?_⟩
  intro i _ h
  exact digitChar_ne_sep _ h

/-- The directory of a name joined to the directory of a path is the
directory of the path. -/
theorem Dir_Join_Dir (path name : String) (hn : Real name.data) :
    Dir (Join (Dir path) name) = Dir path := by
  obtain ⟨rooted, out, hN, hd⟩ := cleanChars_normal (dirPrefix path.data)
  have hJ : Join (Dir path) name = Clean (Dir path ++ "/" ++ name) := by
    unfold Join
    rw [if_pos (Dir_ne_empty path)]
  have hdata : (Dir path ++ "/" ++ name).data =
      cleanChars (dirPrefix path.data) ++ '/' :: name.data := by
    simp [Dir, String.data_append]
  rw [hJ]
  unfold Clean
  rw [hdata, hd, cleanChars_join hN hn]
  unfold Dir
  rw [hd]
  exact congrArg String.mk (cleanChars_dirPrefix hN hn)

/-! ## C9: the temporary file lives in the directory of the target -/

/-- C9: the temporary file `SaveToken` creates is named by joining
`filepath.Dir(path)` with `token` and a random number, so its parent directory
is the parent directory of the target path, the directory `MkdirAll` made
sure exists in step 1; the source and the destination of the rename share
that directory. -/
theorem SaveToken_temp_in_target_dir {Token : Type} (J : Codec Token)
    (env : SaveEnv) (fs₀ : FS) (path : String) (mode : FileMode) (token : Token)
    (tmp : String)
    (h : (SaveToken J env fs₀ path mode token).tempPath = some tmp) :
    Dir tmp = Dir path ∧
    (∃ r, env.tempFile = .ok r ∧
      tmp = Join (Dir path) ("token" ++ nextRandom r)) ∧
    ∃ ds fs₁, MkdirAll env.mkdirAll fs₀ (Dir tmp) ModePerm = (ds, fs₁, none) ∧
      fs₁.dirs (Dir tmp) = true := by
  obtain ⟨ds, fs₁, e₁, hm, H⟩ := SaveToken_run J env fs₀ path mode token
  rcases H with ⟨err, rfl, hr⟩ | ⟨rfl, err, ht, hr⟩ |
    ⟨rfl, tmp', fs₂, ht, -⟩
  · rw [hr] at h
    simp at h
  · rw [hr] at h
    simp at h
  · rw [SaveToken_tempPath J env fs₀ path mode token hm ht] at h
    obtain rfl := Option.some.inj h
    obtain ⟨-, -, -, r, hr, hname⟩ := TempFile_ok ht
    rw [if_neg (Dir_ne_empty path)] at hname
    have hdir : Dir tmp' = Dir path := by
      rw [hname]
      exact Dir_Join_Dir path _ (tempName_real r)
    refine ⟨hdir, ⟨r, hr, hname⟩, ds, fs₁, ?_, ?_⟩
    · rw [hdir]; exact hm
    · rw [hdir]; exact MkdirAll_ok_dirs hm

/-- C9, an instance: for the target `d/token.json` the temporary file is
`d/token000000007`, in the directory `d`. -/
theorem SaveToken_temp_in_target_dir_witness :
    (SaveToken exampleCodec (SaveEnv.quiet 7) FS.empty "d/token.json" 0o600
        ⟨"abc"⟩).tempPath = some "d/token000000007" ∧
    Dir "d/token000000007" = Dir "d/token.json" :=
  ⟨by decide,
   (SaveToken_temp_in_target_dir exampleCodec (SaveEnv.quiet 7) FS.empty
      "d/token.json" 0o600 ⟨"abc"⟩ "d/token000000007" (by decide)).1⟩

end Adal
